import Mathlib

/-!
Verification of the CTF link engine (`libctf/ctf-link.c`).

The source is shallowly embedded: a `CFile` is a CTF container
(`ctf_file_t`), a `World` maps container handles (pointers, modelled as
`Nat`) to containers, and `St` adds an allocation counter so `ctf_create`
can hand out fresh handles.  Every function from `ctf-link.c` is
translated directly; collaborators the repository keeps in other files
(hash tables, `ctf_add_type`, `ctf_str_add_external`, archive iteration,
the `LCTF_*` type-reference macros from `ctf-impl.h`) are modelled from
the specification, with a doc comment saying so.  Error returns follow
the `ctf_set_errno` convention collapsed to the error code itself: `0`
is success and a nonzero value is the code stored in the error slot.
-/

set_option autoImplicit false

namespace CtfLink

/-- Member and file names, as C strings. -/
abbrev Name := List Char

/-- The reserved default-member name `_CTF_SECTION`, the string ".ctf". -/
def ctfSection : Name := ['.', 'c', 't', 'f']

/-- The string ".ctf." used to build and strip CU names. -/
def ctfDot : Name := ['.', 'c', 't', 'f', '.']

/-- Modelled from the spec: error kinds surfaced by the engine
(`ECTF_*` constants live in headers outside this repository's sources;
only their distinctness matters here). -/
def ENOMEM : Int := 12

/-- Modelled from the spec: the invalid-mapping ("should never happen") code. -/
def EINVAL : Int := 22

/-- Modelled from the spec: the format error kind. -/
def ECTF_FMT : Int := 1001

/-- Modelled from the spec: the member-not-found error kind
("an archive has no CTF_MAIN member"). -/
def ECTF_ARNNAME : Int := 1019

/-- Modelled from the spec: the conflict error kind from the add-type operation. -/
def ECTF_CONFLICT : Int := 1027

/-- Modelled from the spec: the not-yet-implemented error kind. -/
def ECTF_NOTYET : Int := 1028

/-- Modelled from the spec: the late-add error kind. -/
def ECTF_LINKADDEDLATE : Int := 1029

/-- Modelled from the spec: the default (only implemented) share mode. -/
def CTF_LINK_SHARE_UNCONFLICTED : Int := 0

/-- Modelled from the spec: the rejected share-duplicated mode. -/
def CTF_LINK_SHARE_DUPLICATED : Int := 1

/-- Modelled from the spec: a type definition, reduced to the two facts the
link engine consumes: a name and a structural shape.  Two types are the same
type when both agree, and conflict when the names agree but the shapes do not. -/
structure TypeRep where
  nm : Nat
  sh : Nat
deriving DecidableEq

/-- The content of one archive member: its type table and its variables
(`ctf_type_iter_all` and `ctf_variable_iter` walk exactly these). -/
structure CU where
  types : List TypeRep := []
  vars : List (Name × Nat) := []
deriving DecidableEq

/-- Opening one archive member either yields its content or fails with an
error code (a corrupt member). -/
inductive Member where
  | ok (cu : CU)
  | bad (e : Int)
deriving DecidableEq

/-- Modelled from the spec: an archive is a named collection of members,
addressable by member name, with the distinguished default member named
`ctfSection`. -/
structure Archive where
  members : List (Name × Member) := []
deriving DecidableEq

/-- A CTF container (`ctf_file_t`), with exactly the fields `ctf-link.c`
touches: parent link, CU name, dirtiness flag, type table, variables
(`ctf_dvhash`), external string table, the per-destination type-mapping
index, and the link input/output sets (absent maps model NULL pointers). -/
structure CFile where
  parent : Option Nat := none
  cuname : Option Name := none
  dirty : Bool := false
  types : List TypeRep := []
  vars : List (Name × Nat) := []
  externs : List (Name × Nat) := []
  mapping : List ((Nat × Nat) × Nat) := []
  linkInputs : Option (List (Name × Archive)) := none
  linkOutputs : Option (List (Name × Nat)) := none
deriving DecidableEq

instance : Inhabited CFile := ⟨{}⟩

/-- The heap of containers: handle (pointer identity) to container. -/
abbrev World := Nat → CFile

/-- Store container `c` at handle `i`. -/
def upd (w : World) (i : Nat) (c : CFile) : World :=
  fun j => if j = i then c else w j

/-- Link-engine state: the container heap plus the next fresh handle
(`ctf_create` allocation). -/
structure St where
  w : World
  next : Nat

/-- Modelled from the spec: association lookup, the dynhash lookup on a
string- or pair-keyed table. -/
def assocGet {α β : Type} [DecidableEq α] : List (α × β) → α → Option β
  | [], _ => none
  | (k, v) :: l, a => if k = a then some v else assocGet l a

/-- Modelled from the spec: association insert, the dynhash insert; an
existing key's value is replaced, otherwise the pair is appended (iteration
order is insertion order, as the spec requires). -/
def assocPut {α β : Type} [DecidableEq α] : List (α × β) → α → β → List (α × β)
  | [], a, b => [(a, b)]
  | (k, v) :: l, a, b => if k = a then (a, b) :: l else (k, v) :: assocPut l a b

/-- Type-mapping table lookup with the C NULL/zero sentinel: a missing key
reads as 0, exactly as `ctf_dynhash_lookup` returns NULL. -/
def mappingGet (m : List ((Nat × Nat) × Nat)) (k : Nat × Nat) : Nat :=
  (assocGet m k).getD 0

/-- Modelled from the spec: the container-locality bit of a packed type
reference (bit 31 in the on-disk format). -/
def parentBit : Nat := 2 ^ 31

/-- Modelled from the spec: `LCTF_TYPE_ISPARENT` — a reference whose
locality bit is clear refers to the parent container when read inside a
child. -/
def LCTF_TYPE_ISPARENT (id : Nat) : Bool := id < parentBit

/-- Modelled from the spec: `LCTF_TYPE_TO_INDEX` — strip the locality bit,
leaving the bare type index. -/
def LCTF_TYPE_TO_INDEX (id : Nat) : Nat := id % parentBit

/-- Modelled from the spec: `LCTF_INDEX_TO_TYPE` — pack a bare index back
into a full reference, setting the locality bit when `child` holds. -/
def LCTF_INDEX_TO_TYPE (idx : Nat) (child : Bool) : Nat :=
  if child then idx ||| parentBit else idx

/-- Normalization shared by `ctf_add_type_mapping` and `ctf_type_mapping`:
walk a (container, type) pair to the parent when the reference is
parent-scoped and a parent exists (source lines 79-84). -/
def normalizeSrc (w : World) (srcId srcType : Nat) : Nat × Nat :=
  let srcId' :=
    match (w srcId).parent with
    | some p => if LCTF_TYPE_ISPARENT srcType then p else srcId
    | none => srcId
  (srcId', LCTF_TYPE_TO_INDEX srcType)

/-- `ctf_add_type_mapping` (ctf-link.c:28-66): record that source type
`srcType` of container `srcId` is represented by destination type `dstType`
of container `dstId`.  Both pairs are normalized to the parent when
parent-scoped, reduced to bare indices, and inserted into the destination's
mapping table.  (The OOM-drop path is not modelled: allocation succeeds.) -/
def ctf_add_type_mapping (w : World) (srcId srcType dstId dstType : Nat) : World :=
  let s := normalizeSrc w srcId srcType
  let dstId' :=
    match (w dstId).parent with
    | some p => if LCTF_TYPE_ISPARENT dstType then p else dstId
    | none => dstId
  let dstIdx := LCTF_TYPE_TO_INDEX dstType
  let d := w dstId'
  upd w dstId' { d with mapping := assocPut d.mapping s dstIdx }

/-- `ctf_type_mapping` (ctf-link.c:70-113): look up a type mapping,
returning the resolved destination container and the destination type
reference, 0 if none.  The hinted destination is tried first; on a miss
the hint's parent is tried and becomes the resolved destination. -/
def ctf_type_mapping (w : World) (srcId srcType dstId : Nat) : Nat × Nat :=
  let key := normalizeSrc w srcId srcType
  let t := mappingGet (w dstId).mapping key
  if t ≠ 0 then
    (dstId, LCTF_INDEX_TO_TYPE t (w dstId).parent.isSome)
  else
    match (w dstId).parent with
    | none => (dstId, 0)
    | some p =>
      let t2 := mappingGet (w p).mapping key
      if t2 ≠ 0 then (p, LCTF_INDEX_TO_TYPE t2 (w p).parent.isSome)
      else (p, 0)

/-- Modelled from the spec (section 4.1 Lookup, written from the spec's
words, to be compared with `ctf_type_mapping`): "Normalize src.  Try the
hinted destination; if found, translate the stored bare index back to a
full type reference for that destination (parent-scoped iff that
destination has a parent).  If not found and the hint has a parent, retry
in the parent and return with that parent as the resolved destination.
Return zero/not-found only if both attempts miss."  Here "parent-scoped"
reads, as in the spec's own section 4.2.2 ("set the parent bit, keep the
index"), as: the locality bit of the packed reference is set. -/
def typeMappingSpec (w : World) (srcId srcType dstId : Nat) : Nat × Nat :=
  let key := normalizeSrc w srcId srcType
  match (w dstId).parent with
  | none =>
    let t := mappingGet (w dstId).mapping key
    if t = 0 then (dstId, 0) else (dstId, LCTF_INDEX_TO_TYPE t false)
  | some p =>
    let t := mappingGet (w dstId).mapping key
    if t = 0 then
      let t2 := mappingGet (w p).mapping key
      if t2 = 0 then (p, 0) else (p, LCTF_INDEX_TO_TYPE t2 (w p).parent.isSome)
    else (dstId, LCTF_INDEX_TO_TYPE t true)

/-- Modelled from the spec: `ctf_add_variable` — bind `name` to type
reference `ty` in container `fpId`'s variables; a second assignment to an
existing name is disallowed by the underlying add operation (the callers
in `ctf-link.c` discard the error, so the failed add is a no-op here). -/
def ctf_add_variable (w : World) (fpId : Nat) (name : Name) (ty : Nat) : World :=
  let f := w fpId
  match assocGet f.vars name with
  | some _ => w
  | none => upd w fpId { f with vars := f.vars ++ [(name, ty)] }

/-- `ctf_link_one_variable` (ctf-link.c:259-325): link one variable of
input `inId` into the link whose shared output is `outId`.  The parent is
probed first; a same-typed variable already there is left alone, a missing
one is added there.  Otherwise the destination reference is childified
(`check_fp` is left untouched, exactly as in the source) or looked up in
the child, and the variable added to `check_fp`; an unmapped type returns
`EINVAL`. -/
def ctf_link_one_variable (w : World) (outId inId : Nat) (name : Name) (ty : Nat) :
    World × Int :=
  match (w outId).parent with
  | some par =>
    let r := ctf_type_mapping w inId ty par
    let check0 := r.1
    let dst0 := r.2
    if dst0 ≠ 0 then
      match assocGet (w check0).vars name with
      | some t =>
        if t = dst0 then (w, 0)
        else
          let dst1 := LCTF_INDEX_TO_TYPE (LCTF_TYPE_TO_INDEX dst0) true
          (ctf_add_variable w check0 name dst1, 0)
      | none => (ctf_add_variable w check0 name dst0, 0)
    else
      let r2 := ctf_type_mapping w inId ty outId
      if r2.2 = 0 then (w, EINVAL) else (ctf_add_variable w r2.1 name r2.2, 0)
  | none =>
    let r2 := ctf_type_mapping w inId ty outId
    if r2.2 = 0 then (w, EINVAL) else (ctf_add_variable w r2.1 name r2.2, 0)

/-- Result of the add-type collaborator: the new (or deduplicated)
destination index, or a conflict. -/
inductive AddTypeRes where
  | ok (idx : Nat)
  | conflict
deriving DecidableEq

/-- Find the first type of a given name in a type table, with its 0-based
position (the name lookup underlying duplicate detection). -/
def lookupTypeByName : List TypeRep → Nat → Option (Nat × TypeRep)
  | [], _ => none
  | t :: rest, nm =>
    if t.nm = nm then some (0, t)
    else (lookupTypeByName rest nm).map (fun p => (p.1 + 1, p.2))

/-- Modelled from the spec: the collaborator `ctf_add_type` — add a type
to destination `dstId` with structural-duplicate detection: an existing
type of the same name and shape is the duplicate (its index is returned
and the mapping recorded), the same name with a different shape is a
conflict, and otherwise the type is appended and the mapping recorded
(spec 4.2.1: "Success: record the mapping and return ok"). -/
def ctf_add_type (st : St) (dstId srcId srcType : Nat) (rep : TypeRep) :
    St × AddTypeRes :=
  let d := st.w dstId
  match lookupTypeByName d.types rep.nm with
  | some (i, t) =>
    if t.sh = rep.sh then
      let dstType := LCTF_INDEX_TO_TYPE (i + 1) d.parent.isSome
      ({ st with w := ctf_add_type_mapping st.w srcId srcType dstId dstType }, .ok (i + 1))
    else
      (st, .conflict)
  | none =>
    let idx := d.types.length + 1
    let w1 := upd st.w dstId { d with types := d.types ++ [rep] }
    let dstType := LCTF_INDEX_TO_TYPE idx d.parent.isSome
    ({ st with w := ctf_add_type_mapping w1 srcId srcType dstId dstType }, .ok idx)

/-- Allocate a fresh container holding the content of an opened archive
member (the collaborator that opens a member hands back a `ctf_file_t`). -/
def allocCU (st : St) (cu : CU) : St × Nat :=
  ({ w := upd st.w st.next { types := cu.types, vars := cu.vars }, next := st.next + 1 },
   st.next)

/-- Allocate a fresh empty writable container (`ctf_create`). -/
def allocEmpty (st : St) : St × Nat :=
  ({ w := upd st.w st.next {}, next := st.next + 1 }, st.next)

/-- Set a container's parent (`ctf_import`). -/
def setParent (st : St) (i : Nat) (p : Option Nat) : St :=
  { st with w := upd st.w i { st.w i with parent := p } }

/-- Set a container's CU name (`ctf_cuname_set`). -/
def setCuname (st : St) (i : Nat) (n : Option Name) : St :=
  { st with w := upd st.w i { st.w i with cuname := n } }

/-- Set a container's link output set. -/
def setOutputs (st : St) (i : Nat) (v : Option (List (Name × Nat))) : St :=
  { st with w := upd st.w i { st.w i with linkOutputs := v } }

/-- Set a container's link input set. -/
def setInputs (st : St) (i : Nat) (v : Option (List (Name × Archive))) : St :=
  { st with w := upd st.w i { st.w i with linkInputs := v } }

/-- The on-demand creation step of `ctf_link_one_type` (ctf-link.c:230-243):
a fresh writable container (`ctf_create`) is inserted into the link output
set under `arcname`, the shared output is installed as its parent
(`ctf_import`) and `cunm` becomes its CU name. -/
def createPerCU (st : St) (sharedId : Nat) (arcname cunm : Name) : St × Nat :=
  let outp := (st.w sharedId).linkOutputs.getD []
  let (st, pid) := allocEmpty st
  let st := setOutputs st sharedId (some (assocPut outp arcname pid))
  let st := setParent st pid (some sharedId)
  let st := setCuname st pid (some cunm)
  (st, pid)

/-- The add into the per-CU output (ctf-link.c:225-254 continued): find or
create the per-CU container for `arcname`, then add the type there. -/
def linkTypePerCU (st : St) (sharedId : Nat) (arcname cunm : Name) (inId tid : Nat)
    (rep : TypeRep) : St × Int :=
  let outp := (st.w sharedId).linkOutputs.getD []
  let (st, pid) :=
    match assocGet outp arcname with
    | some pid => (st, pid)
    | none => createPerCU st sharedId arcname cunm
  match ctf_add_type st pid inId tid rep with
  | (st, .ok _) => (st, 0)
  | (st, .conflict) => (st, ECTF_CONFLICT)

/-- `ctf_link_one_type` (ctf-link.c:191-255): link one type of input
member `inId` (type reference `tid`, content `rep`).  Share-duplicated
mode is refused with `ECTF_NOTYET`.  Main-member types are first added to
the shared output `sharedId`; a conflict (and every type of an input
per-CU member) goes to `linkTypePerCU`; any other add failure aborts. -/
def ctf_link_one_type (st : St) (sharedId : Nat) (shareMode : Int) (inCu : Bool)
    (arcname cunm : Name) (inId tid : Nat) (rep : TypeRep) : St × Int :=
  if shareMode ≠ CTF_LINK_SHARE_UNCONFLICTED then (st, ECTF_NOTYET)
  else if inCu then linkTypePerCU st sharedId arcname cunm inId tid rep
  else
    match ctf_add_type st sharedId inId tid rep with
    | (st, .ok _) => (st, 0)
    | (st, .conflict) => linkTypePerCU st sharedId arcname cunm inId tid rep

/-- Modelled from the spec: `ctf_type_iter_all` — enumerate the member's
types in order, stopping at (and returning) the first nonzero callback
result.  A child member's own types carry the locality bit, so the packed
reference handed to the callback sets it when the member has a parent. -/
def typeFold (st : St) (sharedId : Nat) (shareMode : Int) (inCu : Bool)
    (arcname cunm : Name) (inId : Nat) (child : Bool) (i : Nat) :
    List TypeRep → St × Int
  | [] => (st, 0)
  | rep :: rest =>
    let tid := LCTF_INDEX_TO_TYPE (i + 1) child
    let (st', e) := ctf_link_one_type st sharedId shareMode inCu arcname cunm inId tid rep
    if e ≠ 0 then (st', e)
    else typeFold st' sharedId shareMode inCu arcname cunm inId child (i + 1) rest

/-- Modelled from the spec: `ctf_variable_iter` — enumerate the member's
variables in order, stopping at the first nonzero callback result. -/
def varFold (st : St) (outId inId : Nat) : List (Name × Nat) → St × Int
  | [] => (st, 0)
  | (n, t) :: rest =>
    let r := ctf_link_one_variable st.w outId inId n t
    let st' : St := { st with w := r.1 }
    if r.2 ≠ 0 then (st', r.2) else varFold st' outId inId rest

/-- The arcname computed by `ctf_link_one_input_archive_member`
(ctf-link.c:351-356): ".ctf." followed by the input file name for the
main member, the member name as provided by the archive otherwise. -/
def linkArcname (isMain : Bool) (fileName memberName : Name) : Name :=
  if isMain then ctfDot ++ fileName else memberName

/-- The CU name recorded for a per-CU output (ctf-link.c:363-365): the
arcname with a leading ".ctf." stripped when present. -/
def linkCuName (arcname : Name) : Name :=
  if ctfDot.isPrefixOf arcname then arcname.drop 5 else arcname

/-- `ctf_link_one_input_archive_member` (ctf-link.c:332-376): process one
archive member.  The main member is processed once (re-encounters after
`doneMain` return 0); other members import the main member as their
parent and are flagged as input CU files.  Types are linked first, then
variables. -/
def ctf_link_one_input_archive_member (st : St) (sharedId : Nat) (mode : Int)
    (fileName : Name) (mainId : Nat) (doneMain : Bool) (fpId : Nat) (mname : Name) :
    St × Int :=
  if mname = ctfSection then
    if doneMain then (st, 0)
    else
      let arcname := linkArcname true fileName mname
      let cunm := linkCuName arcname
      let child := (st.w fpId).parent.isSome
      let (st, e0) := typeFold st sharedId mode false arcname cunm fpId child 0 (st.w fpId).types
      if e0 ≠ 0 then (st, e0) else varFold st sharedId fpId (st.w fpId).vars
  else
    let arcname := linkArcname false fileName mname
    let cunm := linkCuName arcname
    let st := setParent st fpId (some mainId)
    let child := (st.w fpId).parent.isSome
    let (st, e0) := typeFold st sharedId mode true arcname cunm fpId child 0 (st.w fpId).types
    if e0 ≠ 0 then (st, e0) else varFold st sharedId fpId (st.w fpId).vars

/-- Modelled from the spec: `ctf_archive_iter` — open each member in
archive order and invoke the member callback, stopping at (and
returning) the first nonzero callback result; a member that fails to
open aborts the iteration with a negative result. -/
def archiveMembersFold (st : St) (sharedId : Nat) (mode : Int) (fileName : Name)
    (mainId : Nat) : List (Name × Member) → St × Int
  | [] => (st, 0)
  | (_, .bad _) :: _ => (st, -1)
  | (n, .ok cu) :: rest =>
    let (st, fpId) := allocCU st cu
    let (st, e) := ctf_link_one_input_archive_member st sharedId mode fileName mainId true fpId n
    if e ≠ 0 then (st, e) else archiveMembersFold st sharedId mode fileName mainId rest

/-- Modelled from the spec: `ctf_arc_open_by_name (arc, NULL)` — open the
archive's default (CTF_MAIN) member; a missing member is the
`ECTF_ARNNAME` error, distinct from any other open failure. -/
def ctf_arc_open_main (arc : Archive) : Member :=
  match assocGet arc.members ctfSection with
  | none => .bad ECTF_ARNNAME
  | some m => m

/-- Outcome of running (part of) the link driver: a state with the
accumulated sub-CU error, or the null dereference the source performs
when it goes on using an absent main member handle. -/
inductive LRes where
  | ok (st : St) (argErr : Int)
  | nullDeref

/-- `ctf_link_one_input_archive` (ctf-link.c:379-408): process one input
archive.  A main-member open failure other than `ECTF_ARNNAME` logs and
skips the archive; on `ECTF_ARNNAME` the source keeps going and passes the
NULL handle to the member walk, which dereferences it — modelled as the
`nullDeref` outcome.  The direct main-member call's return value is
discarded (source line 398), and only a negative iteration result is
promoted into `argErr` (source line 401). -/
def ctf_link_one_input_archive (st : St) (sharedId : Nat) (mode : Int)
    (argErr : Int) (fileName : Name) (arc : Archive) : LRes :=
  match ctf_arc_open_main arc with
  | .bad e =>
    if e ≠ ECTF_ARNNAME then .ok st argErr
    else .nullDeref
  | .ok mainCu =>
    let (st, mainId) := allocCU st mainCu
    let (st, _e1) :=
      ctf_link_one_input_archive_member st sharedId mode fileName mainId false mainId ctfSection
    let (st, aerr) := archiveMembersFold st sharedId mode fileName mainId arc.members
    .ok st (if aerr < 0 then aerr else argErr)

/-- Modelled from the spec: `ctf_dynhash_iter` over the link input set —
process each registered archive in insertion order. -/
def linkInputsFold (sharedId : Nat) (mode : Int) :
    St → Int → List (Name × Archive) → LRes
  | st, argErr, [] => .ok st argErr
  | st, argErr, (n, arc) :: rest =>
    match ctf_link_one_input_archive st sharedId mode argErr n arc with
    | .nullDeref => .nullDeref
    | .ok st' argErr' => linkInputsFold sharedId mode st' argErr' rest

/-- `ctf_link` (ctf-link.c:412-439): merge all registered inputs.  With no
inputs it returns at once; otherwise the link output set is allocated if
absent, every input archive is processed, and any promoted sub-CU error is
surfaced. -/
def ctf_link (st : St) (sharedId : Nat) (mode : Int) : LRes :=
  match (st.w sharedId).linkInputs with
  | none => .ok st 0
  | some inputs =>
    let st :=
      if (st.w sharedId).linkOutputs = none then setOutputs st sharedId (some [])
      else st
    match linkInputsFold sharedId mode st 0 inputs with
    | .nullDeref => .nullDeref
    | .ok st argErr => .ok st argErr

/-- `ctf_link_add_ctf` (ctf-link.c:143-170): register an input archive
under `name`.  Refused with `ECTF_LINKADDEDLATE` once the link output set
exists; otherwise the input set is created on first use and the archive
inserted.  (The OOM paths are not modelled: allocation succeeds.) -/
def ctf_link_add_ctf (st : St) (sharedId : Nat) (arc : Archive) (name : Name) :
    St × Int :=
  let out := st.w sharedId
  if out.linkOutputs.isSome then (st, ECTF_LINKADDEDLATE)
  else
    let inputs := out.linkInputs.getD []
    (setInputs st sharedId (some (assocPut inputs name arc)), 0)

/-- The error slot of a driver outcome: `some e` for a completed run,
`none` for the null dereference. -/
def linkErrOf : LRes → Option Int
  | .ok _ e => some e
  | .nullDeref => none

/-- The state of a driver outcome, with a fallback for the null
dereference. -/
def linkStOf (fallback : St) : LRes → St
  | .ok st _ => st
  | .nullDeref => fallback

/-- One step of `ctf_link_intern_extern_string` / the shared-output body of
`ctf_link_add_strtab` (ctf-link.c:449-459, 475-481): mark container `cid`
dirty, then intern the pair; `aFail s cid` says the underlying
`ctf_str_add_external` (modelled from the spec) fails with out-of-memory
for string `s` in container `cid`.  Returns whether the intern failed. -/
def internPair (w : World) (cid : Nat) (s : Name) (off : Nat)
    (aFail : Name → Nat → Bool) : World × Bool :=
  let c := w cid
  let w := upd w cid { c with dirty := true }
  if aFail s cid then (w, true)
  else
    let c := w cid
    (upd w cid { c with externs := assocPut c.externs s off }, false)

/-- Fan one (string, offset) pair out to every per-CU output container
(the `ctf_dynhash_iter` of ctf-link.c:483); the error flag latches. -/
def strtabOutputsFold (aFail : Name → Nat → Bool) (s : Name) (off : Nat) :
    World → List (Name × Nat) → World × Bool
  | w, [] => (w, false)
  | w, (_, cid) :: rest =>
    let (w, f) := internPair w cid s off aFail
    let (w, f2) := strtabOutputsFold aFail s off w rest
    (w, f || f2)

/-- The producer loop of `ctf_link_add_strtab` (ctf-link.c:467-490): each
pair is interned into the shared output and fanned out to every per-CU
output; a failure taints the return code with `ENOMEM` but iteration
continues. -/
def addStrtabGo (sharedId : Nat) (aFail : Name → Nat → Bool) :
    World → Int → List (Name × Nat) → World × Int
  | w, err, [] => (w, err)
  | w, err, (s, off) :: rest =>
    let (w, fsh) := internPair w sharedId s off aFail
    let err := if fsh then ENOMEM else err
    let (w, fout) := strtabOutputsFold aFail s off w ((w sharedId).linkOutputs.getD [])
    let err := if fout then ENOMEM else err
    addStrtabGo sharedId aFail w err rest

/-- `ctf_link_add_strtab` (ctf-link.c:467-490), with the pull-style
producer reified as the list of pairs it yields. -/
def ctf_link_add_strtab (st : St) (sharedId : Nat) (pairs : List (Name × Nat))
    (aFail : Name → Nat → Bool) : St × Int :=
  let r := addStrtabGo sharedId aFail st.w 0 pairs
  ({ st with w := r.1 }, r.2)

/-- What `ctf_link_write` emits: a single container image, or an ordered
archive member list.  Buffer serialization, compression above the
threshold and the temporary-file plumbing are byte-level concerns the
spec models as "produce the whole buffer at once". -/
inductive WriteOut where
  | buf (c : CFile)
  | arch (members : List (Name × CFile))

/-- `ctf_link_write` (ctf-link.c:549-666): finalize every output (the
`ctf_update` collaborator, whose failure paths are allocation-level and
not modelled), then emit the shared container alone when there are no
per-CU outputs, and otherwise the member list with the shared container
first under the reserved name and each per-CU output under its key in the
link output set, in insertion order. -/
def ctf_link_write (st : St) (sharedId : Nat) (_threshold : Nat) : WriteOut :=
  let outs := (st.w sharedId).linkOutputs.getD []
  match outs with
  | [] => .buf (st.w sharedId)
  | l => .arch ((ctfSection, st.w sharedId) :: l.map (fun p => (p.1, st.w p.2)))

/-- A heap where every handle holds an empty container. -/
def emptyWorld : World := fun _ => {}

/-- The input file name "a". -/
def aName : Name := ['a']

/-- The input file name "b". -/
def bName : Name := ['b']

/-- The member name "foo". -/
def fooName : Name := ['f', 'o', 'o']

/-- The variable name "g". -/
def gName : Name := ['g']

/-- An archive whose main member is corrupt: opening it fails with the
format error, not with member-not-found. -/
def archBadFmt : Archive := ⟨[(ctfSection, .bad ECTF_FMT)]⟩

/-- An archive with no CTF_MAIN member at all. -/
def archNoMain : Archive := ⟨[(fooName, .ok {})]⟩

/-- An archive whose main member opens fine and holds nothing. -/
def archTrivial : Archive := ⟨[(ctfSection, .ok {})]⟩

/-- An archive whose main member holds a single type. -/
def archOneType : Archive := ⟨[(ctfSection, .ok { types := [⟨1, 1⟩] })]⟩

/-- An archive with an empty main member and one input per-CU member
holding a single type. -/
def archWithCu : Archive :=
  ⟨[(ctfSection, .ok {}), (fooName, .ok { types := [⟨1, 1⟩] })]⟩

/-- Shared output at handle 0, with the corrupt-main archive registered. -/
def stBadFmt : St := ⟨upd emptyWorld 0 { linkInputs := some [(aName, archBadFmt)] }, 1⟩

/-- Shared output at handle 0, with the main-less archive registered. -/
def stNoMain : St := ⟨upd emptyWorld 0 { linkInputs := some [(aName, archNoMain)] }, 1⟩

/-- A fresh shared output at handle 0 with nothing registered. -/
def c2_s0 : St := ⟨upd emptyWorld 0 {}, 1⟩

/-- The fresh shared output after registering the trivial archive. -/
def c2_s1 : St := (ctf_link_add_ctf c2_s0 0 archTrivial aName).1

/-- The state after linking the trivial archive in the default mode: the
link output set is allocated but holds no per-CU container. -/
def c2_s2 : St := linkStOf c2_s1 (ctf_link c2_s1 0 CTF_LINK_SHARE_UNCONFLICTED)

/-- Shared output at handle 0 with a one-type archive registered. -/
def c3_s1 : St := ⟨upd emptyWorld 0 { linkInputs := some [(aName, archOneType)] }, 1⟩

/-- The state after requesting the share-duplicated mode on `c3_s1`. -/
def c3_s2 : St := linkStOf c3_s1 (ctf_link c3_s1 0 CTF_LINK_SHARE_DUPLICATED)

/-- A nested-link heap for variable linking: handle 1 is the shared
output, whose parent (handle 0) maps source type 5 of input container 2
to its bare index 7 and already binds variable "g" to the different
type 9. -/
def c4_w : World :=
  upd (upd emptyWorld 0 { mapping := [((2, 5), 7)], vars := [(gName, 9)] })
    1 { parent := some 0 }

/-- Shared output at handle 0 with the per-CU-member archive registered. -/
def c5_s1 : St := ⟨upd emptyWorld 0 { linkInputs := some [(aName, archWithCu)] }, 1⟩

/-- The state after linking `c5_s1` in the default mode: a per-CU output
exists although the shared output's type table stayed empty. -/
def c5_s2 : St := linkStOf c5_s1 (ctf_link c5_s1 0 CTF_LINK_SHARE_UNCONFLICTED)

/-- A heap for the mapping-lookup witness: the hint (handle 1) has parent
0 which holds the mapping entry. -/
def c6_w : World :=
  upd (upd emptyWorld 0 { mapping := [((2, 3), 4)] }) 1 { parent := some 0 }

/-- A shared output with no per-CU outputs, for the write witness. -/
def c7_stEmpty : St := ⟨upd emptyWorld 0 {}, 1⟩

/-- A shared output (handle 0) with one per-CU output (handle 1), for the
write and strtab witnesses. -/
def c7_stOut : St :=
  ⟨upd (upd emptyWorld 0 { linkOutputs := some [(fooName, 1)] }) 1 { parent := some 0 }, 2⟩

/-- The pairs yielded by the strtab producer in the witness. -/
def c8_pairs : List (Name × Nat) := [(aName, 17), (bName, 34)]

/-- An allocation-failure oracle: interning "a" into container 1 fails. -/
def c8_fail : Name → Nat → Bool := fun s cid => s == aName && cid == 1

/-- A fresh shared output at handle 0 for the empty-link witness. -/
def c10_st : St := ⟨upd emptyWorld 0 {}, 1⟩

/-- The per-CU invariant of the link output set of shared output `sid`:
every member of the set is a distinct, allocated container whose parent is
the shared output itself (no deeper nesting). -/
def perCUInv (st : St) (sid : Nat) : Prop :=
  sid < st.next ∧
    ∀ p ∈ (st.w sid).linkOutputs.getD [],
      p.2 < st.next ∧ p.2 ≠ sid ∧ (st.w p.2).parent = some sid

/-- Shape-consistency of a container against a naming `f`: every type's
shape is determined by its name, so no add can conflict. -/
def typesConsistent (f : Nat → Nat) (c : CFile) : Prop :=
  ∀ r ∈ c.types, r.sh = f r.nm

/-- An archive consisting of exactly one (main) member whose types are
shape-consistent with `f`. -/
def mainOnlyConsistent (f : Nat → Nat) (arc : Archive) : Prop :=
  ∃ cu, arc.members = [(ctfSection, Member.ok cu)] ∧ ∀ r ∈ cu.types, r.sh = f r.nm

/-- Frame fact: a heap transformation leaves every container's parent and
link output set untouched. -/
def preservesPL (w w' : World) : Prop :=
  ∀ j, (w' j).parent = (w j).parent ∧ (w' j).linkOutputs = (w j).linkOutputs

/-- Frame fact: parent, link output set and type table are all untouched. -/
def preservesPLT (w w' : World) : Prop :=
  ∀ j, (w' j).parent = (w j).parent ∧ (w' j).linkOutputs = (w j).linkOutputs ∧
    (w' j).types = (w j).types

/-- The per-CU invariant transported to a driver outcome: a completed run
satisfies it with the allocation counter grown monotonically; the null
dereference carries no state. -/
def lresInv (st : St) (sid : Nat) : LRes → Prop
  | .ok st' _ => perCUInv st' sid ∧ st.next ≤ st'.next
  | .nullDeref => True

theorem upd_self (w : World) (i : Nat) (c : CFile) : upd w i c i = c := by
  simp [upd]

theorem upd_of_ne (w : World) (i : Nat) (c : CFile) {j : Nat} (h : j ≠ i) :
    upd w i c j = w j := by
  simp [upd, h]

theorem lor_parentBit_ne_zero (t : Nat) : ¬ t ||| parentBit = 0 := by
  intro h
  have h2 : (t ||| parentBit).testBit 31 = false := by rw [h]; simp
  rw [Nat.testBit_or] at h2
  simp at h2
  exact absurd h2.2 (by decide)

theorem indexToType_eq_zero_iff (t : Nat) (b : Bool) :
    LCTF_INDEX_TO_TYPE t b = 0 ↔ t = 0 ∧ b = false := by
  cases b
  · simp [LCTF_INDEX_TO_TYPE]
  · simp [LCTF_INDEX_TO_TYPE, lor_parentBit_ne_zero]

/-- Claim C10: calling link when no input archive has been registered
returns ok immediately and changes no state — the returned state is the
argument itself, so in particular the link output set is not allocated —
and a subsequent add-input on the same shared output (whose output set is
unallocated) succeeds and registers the archive. -/
theorem claim10_link_no_inputs (st : St) (sid : Nat) (mode : Int) (arc : Archive)
    (name : Name) (h : (st.w sid).linkInputs = none) :
    ctf_link st sid mode = .ok st 0 ∧
    ((st.w sid).linkOutputs = none →
      (ctf_link_add_ctf st sid arc name).2 = 0 ∧
      ((ctf_link_add_ctf st sid arc name).1.w sid).linkInputs = some [(name, arc)]) := by
  constructor
  · simp [ctf_link, h]
  · intro h2
    have hs : (st.w sid).linkOutputs.isSome = false := by rw [h2]; rfl
    constructor
    · simp [ctf_link_add_ctf, hs]
    · simp [ctf_link_add_ctf, hs, setInputs, upd_self, h, assocPut]

/-- Witness for C10 at a concrete fresh shared output. -/
theorem claim10_link_no_inputs_witness :
    ctf_link c10_st 0 CTF_LINK_SHARE_UNCONFLICTED = .ok c10_st 0 ∧
    (ctf_link_add_ctf c10_st 0 archTrivial aName).2 = 0 :=
  ⟨(claim10_link_no_inputs c10_st 0 CTF_LINK_SHARE_UNCONFLICTED archTrivial aName rfl).1,
   ((claim10_link_no_inputs c10_st 0 CTF_LINK_SHARE_UNCONFLICTED archTrivial aName rfl).2
     rfl).1⟩

/-- Counterexample to C2 as stated: after linking one trivial archive the
link output set is allocated but empty — no per-CU output container
exists — yet add-input returns the late-add error instead of registering
the archive and returning ok. -/
theorem claim2_late_add_counterexample :
    (c2_s2.w 0).linkOutputs = some [] ∧
    (ctf_link_add_ctf c2_s2 0 archTrivial bName).2 = ECTF_LINKADDEDLATE ∧
    ECTF_LINKADDEDLATE ≠ 0 :=
  ⟨rfl, rfl, by decide⟩

/-- Claim C2 as amended: add-input returns the late-add error, leaving the
state untouched, exactly when the link output set has been allocated (which
the first link call with a nonempty input set does even when no per-CU
output container was created); when the output set is unallocated it
registers the archive under its name and returns ok, touching no other
container. -/
theorem claim2_late_add_amended (st : St) (sid : Nat) (arc : Archive) (name : Name) :
    ((st.w sid).linkOutputs.isSome = true →
      ctf_link_add_ctf st sid arc name = (st, ECTF_LINKADDEDLATE)) ∧
    ((st.w sid).linkOutputs = none →
      (ctf_link_add_ctf st sid arc name).2 = 0 ∧
      ((ctf_link_add_ctf st sid arc name).1.w sid).linkInputs =
        some (assocPut ((st.w sid).linkInputs.getD []) name arc) ∧
      ∀ j, j ≠ sid → (ctf_link_add_ctf st sid arc name).1.w j = st.w j) := by
  constructor
  · intro h; simp [ctf_link_add_ctf, h]
  · intro h
    have hs : (st.w sid).linkOutputs.isSome = false := by rw [h]; rfl
    refine ⟨by simp [ctf_link_add_ctf, hs], by simp [ctf_link_add_ctf, hs, setInputs, upd_self], ?_⟩
    intro j hj
    simp [ctf_link_add_ctf, hs, setInputs, upd_of_ne _ _ _ hj]

/-- Witness for the amended C2 on concrete states: the late-add refusal on
an allocated (empty) output set and the successful registration on a fresh
shared output. -/
theorem claim2_late_add_witness :
    ctf_link_add_ctf c2_s2 0 archTrivial bName = (c2_s2, ECTF_LINKADDEDLATE) ∧
    (ctf_link_add_ctf c2_s0 0 archTrivial aName).2 = 0 :=
  ⟨(claim2_late_add_amended c2_s2 0 archTrivial bName).1 rfl,
   ((claim2_late_add_amended c2_s0 0 archTrivial aName).2 rfl).1⟩

/-- Claim C3, evaluated at the failing input: linking one registered
archive holding one type with the share-duplicated mode returns ok (0)
rather than surfacing `ECTF_NOTYET` — the per-type refusal is discarded by
the driver (the direct main-member call's return is dropped and the
positive error fails the `< 0` promotion test) — and it does mutate state:
the link output set goes from unallocated to allocated-empty.  No type is
added to the shared output and no per-CU container is created. -/
theorem claim3_share_duplicated_code_behavior :
    linkErrOf (ctf_link c3_s1 0 CTF_LINK_SHARE_DUPLICATED) = some 0 ∧
    (c3_s1.w 0).linkOutputs = none ∧
    (c3_s2.w 0).linkOutputs = some [] ∧
    (c3_s2.w 0).types = [] ∧
    ECTF_NOTYET ≠ 0 :=
  ⟨rfl, rfl, rfl, rfl, by decide⟩

/-- Claim C4, evaluated at the failing input: the shared output (handle 1)
has a parent (handle 0) whose mapping resolves the variable's source type
to destination 7 and which already binds "g" to the different type 9.
The claim says "g" is then added to the shared output with a child-scoped
reference; the code instead hands the child-scoped reference to the stale
`check_fp` — the parent — where the add no-ops on the existing name, so
the call returns ok with the variable added nowhere: the shared output's
variable table stays empty and the parent's is unchanged. -/
theorem claim4_variable_parent_code_behavior :
    (ctf_link_one_variable c4_w 1 2 gName 5).2 = 0 ∧
    ((ctf_link_one_variable c4_w 1 2 gName 5).1 1).vars = [] ∧
    ((ctf_link_one_variable c4_w 1 2 gName 5).1 0).vars = [(gName, 9)] ∧
    (ctf_type_mapping c4_w 2 5 0).2 = 7 ∧
    assocGet (c4_w 0).vars gName = some 9 ∧ (9 : Nat) ≠ 7 :=
  ⟨rfl, rfl, rfl, rfl, rfl, by decide⟩

/-- Claim C6: the type-mapping lookup normalizes the source pair to the
parent when parent-scoped, tries the hinted destination first, translates
a hit into a full reference whose locality ("parent") bit is set iff that
destination has a parent, retries in the hint's parent on a miss — that
parent becoming the resolved destination — and returns zero only when
both attempts miss.  Stated as equality with `typeMappingSpec`, the
sentence-by-sentence rendering of the spec, plus the both-miss
characterization of zero. -/
theorem claim6_type_mapping_lookup (w : World) (srcId srcType dstId : Nat) :
    ctf_type_mapping w srcId srcType dstId = typeMappingSpec w srcId srcType dstId ∧
    ((ctf_type_mapping w srcId srcType dstId).2 = 0 ↔
      mappingGet (w dstId).mapping (normalizeSrc w srcId srcType) = 0 ∧
      ∀ p, (w dstId).parent = some p →
        mappingGet (w p).mapping (normalizeSrc w srcId srcType) = 0) := by
  rcases hp : (w dstId).parent with _ | p
  · by_cases h1 : mappingGet (w dstId).mapping (normalizeSrc w srcId srcType) = 0
    · simp [ctf_type_mapping, typeMappingSpec, hp, h1]
    · simp [ctf_type_mapping, typeMappingSpec, hp, h1, indexToType_eq_zero_iff]
  · by_cases h1 : mappingGet (w dstId).mapping (normalizeSrc w srcId srcType) = 0
    · by_cases h2 : mappingGet (w p).mapping (normalizeSrc w srcId srcType) = 0
      · simp [ctf_type_mapping, typeMappingSpec, hp, h1, h2]
      · simp [ctf_type_mapping, typeMappingSpec, hp, h1, h2, indexToType_eq_zero_iff]
    · simp [ctf_type_mapping, typeMappingSpec, hp, h1, indexToType_eq_zero_iff]

/-- Witness for C6 on a concrete heap: the hint (handle 1) misses, its
parent (handle 0) hits, and the lookup agrees with the spec rendering. -/
theorem claim6_type_mapping_witness :
    ctf_type_mapping c6_w 2 3 1 = typeMappingSpec c6_w 2 3 1 ∧
    ctf_type_mapping c6_w 2 3 1 = (0, 4) :=
  ⟨(claim6_type_mapping_lookup c6_w 2 3 1).1, rfl⟩

/-- Claim C7: write emits the shared container alone when no per-CU
output exists, and otherwise an archive whose ordered member list starts
with the shared container under the reserved ".ctf" name, followed by
each per-CU container under its name in the link output set, in order. -/
theorem claim7_write_shape (st : St) (sid : Nat) (t : Nat) :
    ((st.w sid).linkOutputs.getD [] = [] → ctf_link_write st sid t = .buf (st.w sid)) ∧
    (∀ l, (st.w sid).linkOutputs.getD [] = l → l ≠ [] →
      ctf_link_write st sid t =
        .arch ((ctfSection, st.w sid) :: l.map (fun p => (p.1, st.w p.2)))) := by
  constructor
  · intro h; unfold ctf_link_write; rw [h]
  · intro l h hne
    unfold ctf_link_write
    rw [h]
    cases l with
    | nil => exact absurd rfl hne
    | cons a l' => rfl

/-- Witness for C7: a shared output with no per-CU containers yields the
single buffer; one with a per-CU output yields the two-member archive
with the shared container first. -/
theorem claim7_write_shape_witness :
    ctf_link_write c7_stEmpty 0 4096 = .buf (c7_stEmpty.w 0) ∧
    ctf_link_write c7_stOut 0 4096 =
      .arch [(ctfSection, c7_stOut.w 0), (fooName, c7_stOut.w 1)] :=
  ⟨(claim7_write_shape c7_stEmpty 0 4096).1 rfl,
   (claim7_write_shape c7_stOut 0 4096).2 [(fooName, 1)] rfl (by decide)⟩

/-- Claim C9: the arcname of a main member is ".ctf." followed by the
input file name and that of a non-main member is the member name as
provided; the CU name strips a leading ".ctf." exactly when present, so
for a main member it equals the input file name. -/
theorem claim9_member_names (file m : Name) :
    linkArcname true file m = ctfDot ++ file ∧
    linkArcname false file m = m ∧
    linkCuName (linkArcname true file m) = file ∧
    (ctfDot.isPrefixOf m = true → linkCuName m = m.drop 5) ∧
    (ctfDot.isPrefixOf m = false → linkCuName m = m) := by
  refine ⟨rfl, rfl, ?_, ?_, ?_⟩
  · show linkCuName (ctfDot ++ file) = file
    have hp : ctfDot.isPrefixOf (ctfDot ++ file) = true := by
      rw [ List.isPrefixOf_iff_prefix]
      exact ⟨file, rfl⟩
    have h5 : (5 : Nat) = ctfDot.length := rfl
    unfold linkCuName
    rw [hp, if_pos rfl, h5, List.drop_left]
  · intro h; simp [linkCuName, h]
  · intro h; simp [linkCuName, h]

/-- Witness for C9 at concrete names: the main member of input file "a"
and the non-main member "foo". -/
theorem claim9_member_names_witness :
    linkCuName (linkArcname true aName fooName) = aName ∧ linkCuName fooName = fooName :=
  ⟨(claim9_member_names aName fooName).2.2.1,
   (claim9_member_names aName fooName).2.2.2.2 (by decide)⟩

theorem preservesPL_refl (w : World) : preservesPL w w := fun _ => ⟨rfl, rfl⟩

theorem preservesPLT_refl (w : World) : preservesPLT w w := fun _ => ⟨rfl, rfl, rfl⟩

theorem preservesPLT_toPL {w w' : World} (h : preservesPLT w w') : preservesPL w w' :=
  fun j => ⟨(h j).1, (h j).2.1⟩

theorem preservesPL_trans {w1 w2 w3 : World} (h1 : preservesPL w1 w2)
    (h2 : preservesPL w2 w3) : preservesPL w1 w3 :=
  fun j => ⟨(h2 j).1.trans (h1 j).1, (h2 j).2.trans (h1 j).2⟩

theorem preservesPLT_trans {w1 w2 w3 : World} (h1 : preservesPLT w1 w2)
    (h2 : preservesPLT w2 w3) : preservesPLT w1 w3 :=
  fun j => ⟨(h2 j).1.trans (h1 j).1, (h2 j).2.1.trans (h1 j).2.1,
    (h2 j).2.2.trans (h1 j).2.2⟩

theorem upd_mapping_plt (w : World) (x : Nat) (m : List ((Nat × Nat) × Nat)) :
    preservesPLT w (upd w x { w x with mapping := m }) := by
  intro j
  by_cases h : j = x
  · subst h; simp [upd]
  · simp [upd, h]

theorem upd_vars_plt (w : World) (x : Nat) (vs : List (Name × Nat)) :
    preservesPLT w (upd w x { w x with vars := vs }) := by
  intro j
  by_cases h : j = x
  · subst h; simp [upd]
  · simp [upd, h]

theorem upd_types_pl (w : World) (x : Nat) (ts : List TypeRep) :
    preservesPL w (upd w x { w x with types := ts }) := by
  intro j
  by_cases h : j = x
  · subst h; simp [upd]
  · simp [upd, h]

theorem ctf_add_type_mapping_plt (w : World) (a b c d : Nat) :
    preservesPLT w (ctf_add_type_mapping w a b c d) := by
  unfold ctf_add_type_mapping
  exact upd_mapping_plt _ _ _

theorem ctf_add_variable_plt (w : World) (f : Nat) (n : Name) (t : Nat) :
    preservesPLT w (ctf_add_variable w f n t) := by
  simp only [ctf_add_variable]
  split
  · exact preservesPLT_refl _
  · exact upd_vars_plt _ _ _

theorem ctf_link_one_variable_plt (w : World) (o i : Nat) (n : Name) (t : Nat) :
    preservesPLT w (ctf_link_one_variable w o i n t).1 := by
  simp only [ctf_link_one_variable]
  split
  · split
    · split
      · split
        · exact preservesPLT_refl _
        · exact ctf_add_variable_plt _ _ _ _
      · exact ctf_add_variable_plt _ _ _ _
    · split
      · exact preservesPLT_refl _
      · exact ctf_add_variable_plt _ _ _ _
  · split
    · exact preservesPLT_refl _
    · exact ctf_add_variable_plt _ _ _ _

theorem varFold_plt (o i : Nat) (l : List (Name × Nat)) : ∀ st : St,
    (varFold st o i l).1.next = st.next ∧ preservesPLT st.w (varFold st o i l).1.w := by
  induction l with
  | nil => intro st; exact ⟨rfl, preservesPLT_refl _⟩
  | cons p rest ih =>
    intro st
    obtain ⟨n, t⟩ := p
    have h1 := ctf_link_one_variable_plt st.w o i n t
    simp only [varFold]
    split
    · exact ⟨rfl, h1⟩
    · obtain ⟨ihn, ihp⟩ := ih { st with w := (ctf_link_one_variable st.w o i n t).1 }
      exact ⟨ihn, preservesPLT_trans h1 ihp⟩

theorem ctf_add_type_frame (st : St) (d s t : Nat) (rep : TypeRep) :
    (ctf_add_type st d s t rep).1.next = st.next ∧
    preservesPL st.w (ctf_add_type st d s t rep).1.w ∧
    ∀ j, j ≠ d → ((ctf_add_type st d s t rep).1.w j).types = (st.w j).types := by
  simp only [ctf_add_type]
  split
  · split
    · refine ⟨rfl, preservesPLT_toPL (ctf_add_type_mapping_plt _ _ _ _ _), ?_⟩
      intro j _
      exact ((ctf_add_type_mapping_plt _ _ _ _ _) j).2.2
    · exact ⟨rfl, preservesPL_refl _, fun _ _ => rfl⟩
  · refine ⟨rfl, ?_, ?_⟩
    · exact preservesPL_trans (upd_types_pl _ _ _)
        (preservesPLT_toPL (ctf_add_type_mapping_plt _ _ _ _ _))
    · intro j hj
      rw [((ctf_add_type_mapping_plt _ _ _ _ _) j).2.2]
      rw [upd_of_ne _ _ _ hj]

theorem mem_assocPut {α β : Type} [DecidableEq α] (l : List (α × β)) (a : α) (b : β) :
    ∀ p ∈ assocPut l a b, p ∈ l ∨ p = (a, b) := by
  induction l with
  | nil =>
    intro p hp
    simp [assocPut] at hp
    right; exact hp
  | cons kv rest ih =>
    intro p hp
    obtain ⟨k, v⟩ := kv
    by_cases h : k = a
    · simp [assocPut, h] at hp
      rcases hp with h1 | h1
      · right; simp [h1]
      · left; simp [h1]
    · simp [assocPut, h] at hp
      rcases hp with h1 | h1
      · left; simp [h1]
      · rcases ih p (by simpa using h1) with h2 | h2
        · left; simp [h2]
        · right; exact h2

theorem lookupTypeByName_mem : ∀ (l : List TypeRep) (nm i : Nat) (t : TypeRep),
    lookupTypeByName l nm = some (i, t) → t ∈ l ∧ t.nm = nm := by
  intro l nm
  induction l with
  | nil => intro i t h; simp [lookupTypeByName] at h
  | cons a rest ih =>
    intro i t h
    by_cases ha : a.nm = nm
    · simp [lookupTypeByName, ha] at h
      obtain ⟨_, ht⟩ := h
      subst ht
      exact ⟨List.mem_cons_self _ _, ha⟩
    · simp [lookupTypeByName, ha, Option.map_eq_some'] at h
      obtain ⟨i', hl, _⟩ := h
      obtain ⟨hm, hn⟩ := ih i' t hl
      exact ⟨List.mem_cons_of_mem _ hm, hn⟩

theorem ctf_add_type_types_at (st : St) (d s t : Nat) (rep : TypeRep) :
    ((ctf_add_type st d s t rep).1.w d).types = (st.w d).types ∨
    ((ctf_add_type st d s t rep).1.w d).types = (st.w d).types ++ [rep] := by
  simp only [ctf_add_type]
  split
  · split
    · left; exact ((ctf_add_type_mapping_plt _ _ _ _ _) d).2.2
    · left; rfl
  · right
    rw [((ctf_add_type_mapping_plt _ _ _ _ _) d).2.2]
    simp [upd]

theorem ctf_add_type_consistent (st : St) (d s t : Nat) (rep : TypeRep) (f : Nat → Nat)
    (hc : typesConsistent f (st.w d)) (hr : rep.sh = f rep.nm) :
    (ctf_add_type st d s t rep).2 ≠ AddTypeRes.conflict ∧
    typesConsistent f ((ctf_add_type st d s t rep).1.w d) := by
  constructor
  · rcases hl : lookupTypeByName (st.w d).types rep.nm with _ | ⟨i, t'⟩
    · simp [ctf_add_type, hl]
    · obtain ⟨hmem, hnm⟩ := lookupTypeByName_mem _ _ _ _ hl
      have hts : t'.sh = rep.sh := by rw [hc t' hmem, hnm, ← hr]
      simp [ctf_add_type, hl, hts]
  · rcases ctf_add_type_types_at st d s t rep with h | h
    · intro r hrr; rw [h] at hrr; exact hc r hrr
    · intro r hrr
      rw [h] at hrr
      rcases List.mem_append.mp hrr with h1 | h1
      · exact hc r h1
      · simp at h1; subst h1; exact hr

theorem perCUInv_of_frame {st st' : St} {sid : Nat} (h : perCUInv st sid)
    (hn : st.next ≤ st'.next) (hf : preservesPL st.w st'.w) : perCUInv st' sid := by
  obtain ⟨hs, hp⟩ := h
  refine ⟨lt_of_lt_of_le hs hn, ?_⟩
  intro p hpmem
  rw [(hf sid).2] at hpmem
  obtain ⟨h1, h2, h3⟩ := hp p hpmem
  exact ⟨lt_of_lt_of_le h1 hn, h2, (hf p.2).1.trans h3⟩

theorem createPerCU_facts (st : St) (sid : Nat) (an cn : Name) (hs : sid < st.next) :
    (createPerCU st sid an cn).2 = st.next ∧
    (createPerCU st sid an cn).1.next = st.next + 1 ∧
    ((createPerCU st sid an cn).1.w sid).linkOutputs =
      some (assocPut ((st.w sid).linkOutputs.getD []) an st.next) ∧
    ((createPerCU st sid an cn).1.w st.next).parent = some sid ∧
    (∀ j, j ≠ st.next → j ≠ sid → (createPerCU st sid an cn).1.w j = st.w j) ∧
    ((createPerCU st sid an cn).1.w sid).parent = (st.w sid).parent := by
  have hne : sid ≠ st.next := Nat.ne_of_lt hs
  refine ⟨rfl, rfl, ?_, ?_, ?_, ?_⟩
  · simp [createPerCU, allocEmpty, setOutputs, setParent, setCuname, upd, hne]
  · simp [createPerCU, allocEmpty, setOutputs, setParent, setCuname, upd, hne]
  · intro j hj1 hj2
    simp [createPerCU, allocEmpty, setOutputs, setParent, setCuname, upd, hj1, hj2]
  · simp [createPerCU, allocEmpty, setOutputs, setParent, setCuname, upd, hne]

theorem createPerCU_inv (st : St) (sid : Nat) (an cn : Name) (h : perCUInv st sid) :
    perCUInv (createPerCU st sid an cn).1 sid ∧
    st.next ≤ (createPerCU st sid an cn).1.next := by
  obtain ⟨hs, hp⟩ := h
  obtain ⟨_, hnext, houts, hpar, hother, _⟩ := createPerCU_facts st sid an cn hs
  constructor
  · refine ⟨?_, ?_⟩
    · rw [hnext]; exact Nat.lt_succ_of_lt hs
    · intro p hpmem
      rw [houts] at hpmem
      simp only [Option.getD_some] at hpmem
      rcases mem_assocPut _ _ _ p hpmem with hin | hnew
      · obtain ⟨h1, h2, h3⟩ := hp p hin
        refine ⟨by rw [hnext]; exact Nat.lt_succ_of_lt h1, h2, ?_⟩
        rw [hother p.2 (Nat.ne_of_lt h1) h2]
        exact h3
      · subst hnew
        refine ⟨by rw [hnext]; exact Nat.lt_succ_self _, (Nat.ne_of_lt hs).symm, hpar⟩
  · rw [hnext]; exact Nat.le_succ _

theorem linkTypePerCU_inv (st : St) (sid : Nat) (an cn : Name) (i t : Nat) (rep : TypeRep)
    (h : perCUInv st sid) :
    perCUInv (linkTypePerCU st sid an cn i t rep).1 sid ∧
    st.next ≤ (linkTypePerCU st sid an cn i t rep).1.next := by
  simp only [linkTypePerCU]
  rcases hga : assocGet ((st.w sid).linkOutputs.getD []) an with _ | pid
  · have hc := createPerCU_inv st sid an cn h
    have hf := ctf_add_type_frame (createPerCU st sid an cn).1 (createPerCU st sid an cn).2 i t rep
    rcases hadd : ctf_add_type (createPerCU st sid an cn).1 (createPerCU st sid an cn).2 i t rep
      with ⟨st1, res⟩
    rw [hadd] at hf
    have hinv1 : perCUInv st1 sid :=
      perCUInv_of_frame hc.1 (le_of_eq hf.1.symm) hf.2.1
    have hle1 : st.next ≤ st1.next := le_trans hc.2 (le_of_eq hf.1.symm)
    cases res
    · exact ⟨hinv1, hle1⟩
    · exact ⟨hinv1, hle1⟩
  · have hf := ctf_add_type_frame st pid i t rep
    rcases hadd : ctf_add_type st pid i t rep with ⟨st1, res⟩
    rw [hadd] at hf
    have hinv1 : perCUInv st1 sid := perCUInv_of_frame h (le_of_eq hf.1.symm) hf.2.1
    cases res
    · exact ⟨hinv1, le_of_eq hf.1.symm⟩
    · exact ⟨hinv1, le_of_eq hf.1.symm⟩

theorem ctf_link_one_type_inv (st : St) (sid : Nat) (mode : Int) (inCu : Bool)
    (an cn : Name) (i t : Nat) (rep : TypeRep) (h : perCUInv st sid) :
    perCUInv (ctf_link_one_type st sid mode inCu an cn i t rep).1 sid ∧
    st.next ≤ (ctf_link_one_type st sid mode inCu an cn i t rep).1.next := by
  simp only [ctf_link_one_type]
  split
  · exact ⟨h, le_refl _⟩
  · split
    · exact linkTypePerCU_inv st sid an cn i t rep h
    · have hf := ctf_add_type_frame st sid i t rep
      rcases hadd : ctf_add_type st sid i t rep with ⟨st1, res⟩
      rw [hadd] at hf
      have hinv1 : perCUInv st1 sid := perCUInv_of_frame h (le_of_eq hf.1.symm) hf.2.1
      have hle1 : st.next ≤ st1.next := le_of_eq hf.1.symm
      cases res
      · exact ⟨hinv1, hle1⟩
      · have h2 := linkTypePerCU_inv st1 sid an cn i t rep hinv1
        exact ⟨h2.1, le_trans hle1 h2.2⟩


theorem varFold_inv (o i : Nat) (l : List (Name × Nat)) (st : St) (sid : Nat)
    (h : perCUInv st sid) :
    perCUInv (varFold st o i l).1 sid ∧ st.next ≤ (varFold st o i l).1.next := by
  obtain ⟨hn, hplt⟩ := varFold_plt o i l st
  exact ⟨perCUInv_of_frame h (le_of_eq hn.symm) (preservesPLT_toPL hplt), le_of_eq hn.symm⟩

theorem typeFold_inv (sid : Nat) (mode : Int) (inCu : Bool) (an cn : Name) (inId : Nat)
    (child : Bool) (l : List TypeRep) : ∀ (i : Nat) (st : St), perCUInv st sid →
    perCUInv (typeFold st sid mode inCu an cn inId child i l).1 sid ∧
    st.next ≤ (typeFold st sid mode inCu an cn inId child i l).1.next := by
  induction l with
  | nil => intro i st h; exact ⟨h, le_refl _⟩
  | cons rep rest ih =>
    intro i st h
    have h1 := ctf_link_one_type_inv st sid mode inCu an cn inId
      (LCTF_INDEX_TO_TYPE (i + 1) child) rep h
    rcases hone : ctf_link_one_type st sid mode inCu an cn inId
      (LCTF_INDEX_TO_TYPE (i + 1) child) rep with ⟨st1, e⟩
    rw [hone] at h1
    simp only [typeFold, hone]
    split
    · exact h1
    · obtain ⟨ih1, ih2⟩ := ih (i + 1) st1 h1.1
      exact ⟨ih1, le_trans h1.2 ih2⟩

theorem setParent_inv (st : St) (sid fpId : Nat) (p : Option Nat) (h : perCUInv st sid)
    (hnotin : ∀ q ∈ (st.w sid).linkOutputs.getD [], q.2 ≠ fpId) :
    perCUInv (setParent st fpId p) sid ∧ (setParent st fpId p).next = st.next := by
  obtain ⟨hs, hp⟩ := h
  refine ⟨⟨hs, ?_⟩, rfl⟩
  intro q hq
  have houts : ((setParent st fpId p).w sid).linkOutputs = (st.w sid).linkOutputs := by
    by_cases hcase : sid = fpId
    · subst hcase; simp [setParent, upd]
    · simp [setParent, upd, hcase]
  rw [houts] at hq
  obtain ⟨h1, h2, h3⟩ := hp q hq
  refine ⟨h1, h2, ?_⟩
  rw [show (setParent st fpId p).w q.2 = st.w q.2 from by
    simp [setParent, upd, hnotin q hq]]
  exact h3

theorem allocCU_inv (st : St) (cu : CU) (sid : Nat) (h : perCUInv st sid) :
    perCUInv (allocCU st cu).1 sid ∧ (allocCU st cu).1.next = st.next + 1 ∧
    (allocCU st cu).2 = st.next ∧
    (allocCU st cu).1.w sid = st.w sid ∧
    (∀ j, j ≠ st.next → (allocCU st cu).1.w j = st.w j) := by
  obtain ⟨hs, hp⟩ := h
  have hall : ∀ j, j ≠ st.next → (allocCU st cu).1.w j = st.w j := by
    intro j hj; simp [allocCU, upd, hj]
  refine ⟨⟨Nat.lt_succ_of_lt hs, ?_⟩, rfl, rfl, hall sid (Nat.ne_of_lt hs), hall⟩
  intro q hq
  rw [show ((allocCU st cu).1.w sid).linkOutputs = (st.w sid).linkOutputs from by
    rw [hall sid (Nat.ne_of_lt hs)]] at hq
  obtain ⟨h1, h2, h3⟩ := hp q hq
  exact ⟨Nat.lt_succ_of_lt h1, h2, by rw [hall q.2 (Nat.ne_of_lt h1)]; exact h3⟩

theorem member_inv (st : St) (sid : Nat) (mode : Int) (fn : Name) (mainId : Nat)
    (dm : Bool) (fpId : Nat) (mn : Name) (h : perCUInv st sid)
    (hnotin : ∀ q ∈ (st.w sid).linkOutputs.getD [], q.2 ≠ fpId) :
    perCUInv (ctf_link_one_input_archive_member st sid mode fn mainId dm fpId mn).1 sid ∧
    st.next ≤ (ctf_link_one_input_archive_member st sid mode fn mainId dm fpId mn).1.next := by
  simp only [ctf_link_one_input_archive_member]
  split
  · split
    · exact ⟨h, le_refl _⟩
    · rcases htf : typeFold st sid mode false (linkArcname true fn mn)
        (linkCuName (linkArcname true fn mn)) fpId (st.w fpId).parent.isSome 0
        (st.w fpId).types with ⟨st1, e0⟩
      have h1 := typeFold_inv sid mode false (linkArcname true fn mn)
        (linkCuName (linkArcname true fn mn)) fpId (st.w fpId).parent.isSome
        (st.w fpId).types 0 st h
      rw [htf] at h1
      simp only [htf]
      split
      · exact h1
      · obtain ⟨h2, h3⟩ := varFold_inv sid fpId (st1.w fpId).vars st1 sid h1.1
        exact ⟨h2, le_trans h1.2 h3⟩
  · obtain ⟨hsp, hspn⟩ := setParent_inv st sid fpId (some mainId) h hnotin
    rcases htf : typeFold (setParent st fpId (some mainId)) sid mode true
      (linkArcname false fn mn) (linkCuName (linkArcname false fn mn)) fpId
      ((setParent st fpId (some mainId)).w fpId).parent.isSome 0
      ((setParent st fpId (some mainId)).w fpId).types with ⟨st1, e0⟩
    have h1 := typeFold_inv sid mode true (linkArcname false fn mn)
      (linkCuName (linkArcname false fn mn)) fpId
      ((setParent st fpId (some mainId)).w fpId).parent.isSome
      ((setParent st fpId (some mainId)).w fpId).types 0
      (setParent st fpId (some mainId)) hsp
    rw [htf] at h1
    simp only [htf]
    split
    · exact ⟨h1.1, le_trans (le_of_eq hspn.symm) h1.2⟩
    · obtain ⟨h2, h3⟩ := varFold_inv sid fpId (st1.w fpId).vars st1 sid h1.1
      exact ⟨h2, le_trans (le_of_eq hspn.symm) (le_trans h1.2 h3)⟩

theorem archiveMembersFold_inv (sid : Nat) (mode : Int) (fn : Name) (mainId : Nat)
    (l : List (Name × Member)) : ∀ st : St, perCUInv st sid →
    perCUInv (archiveMembersFold st sid mode fn mainId l).1 sid ∧
    st.next ≤ (archiveMembersFold st sid mode fn mainId l).1.next := by
  induction l with
  | nil => intro st h; exact ⟨h, le_refl _⟩
  | cons p rest ih =>
    intro st h
    obtain ⟨n, m⟩ := p
    cases m with
    | bad e => exact ⟨h, le_refl _⟩
    | ok cu =>
      obtain ⟨hainv, han, hapid, hwsid, _⟩ := allocCU_inv st cu sid h
      rcases ha : allocCU st cu with ⟨stA, fpId⟩
      rw [ha] at hainv han hapid hwsid
      dsimp only at hainv han hapid hwsid
      have hnotin : ∀ q ∈ (stA.w sid).linkOutputs.getD [], q.2 ≠ fpId := by
        intro q hq
        rw [hwsid] at hq
        rw [hapid]
        exact Nat.ne_of_lt (h.2 q hq).1
      have h1 := member_inv stA sid mode fn mainId true fpId n hainv hnotin
      rcases hm : ctf_link_one_input_archive_member stA sid mode fn mainId true fpId n
        with ⟨st1, e⟩
      rw [hm] at h1
      have hst1 : st.next ≤ st1.next :=
        le_trans (le_trans (Nat.le_succ _) (le_of_eq han.symm)) h1.2
      simp only [archiveMembersFold, ha, hm]
      split
      · exact ⟨h1.1, hst1⟩
      · obtain ⟨ih1, ih2⟩ := ih st1 h1.1
        exact ⟨ih1, le_trans hst1 ih2⟩

theorem lresInv_mono {st st' : St} {sid : Nat} {r : LRes} (hle : st.next ≤ st'.next)
    (h : lresInv st' sid r) : lresInv st sid r := by
  cases r with
  | ok st2 e => exact ⟨h.1, le_trans hle h.2⟩
  | nullDeref => trivial

theorem one_archive_inv (st : St) (sid : Nat) (mode aerr : Int) (n : Name) (arc : Archive)
    (h : perCUInv st sid) :
    lresInv st sid (ctf_link_one_input_archive st sid mode aerr n arc) := by
  simp only [ctf_link_one_input_archive]
  split
  · split
    · exact ⟨h, le_refl _⟩
    · trivial
  · rename_i mainCu heq
    obtain ⟨hainv, han, hapid, hwsid, _⟩ := allocCU_inv st mainCu sid h
    rcases ha : allocCU st mainCu with ⟨stA, mainId⟩
    rw [ha] at hainv han hapid hwsid
    dsimp only at hainv han hapid hwsid
    have hnotin : ∀ q ∈ (stA.w sid).linkOutputs.getD [], q.2 ≠ mainId := by
      intro q hq
      rw [hwsid] at hq
      rw [hapid]
      exact Nat.ne_of_lt (h.2 q hq).1
    have h1 := member_inv stA sid mode n mainId false mainId ctfSection hainv hnotin
    rcases hm : ctf_link_one_input_archive_member stA sid mode n mainId false mainId
      ctfSection with ⟨st1, e1⟩
    rw [hm] at h1
    have h2 := archiveMembersFold_inv sid mode n mainId arc.members st1 h1.1
    rcases hf2 : archiveMembersFold st1 sid mode n mainId arc.members with ⟨st2, aerr2⟩
    rw [hf2] at h2
    simp only [ha, hm, hf2]
    exact ⟨h2.1,
      le_trans (le_trans (Nat.le_succ _) (le_of_eq han.symm)) (le_trans h1.2 h2.2)⟩

theorem linkInputsFold_inv (sid : Nat) (mode : Int) (l : List (Name × Archive)) :
    ∀ (st : St) (aerr : Int), perCUInv st sid →
    lresInv st sid (linkInputsFold sid mode st aerr l) := by
  induction l with
  | nil => intro st aerr h; exact ⟨h, le_refl _⟩
  | cons p rest ih =>
    intro st aerr h
    obtain ⟨n, arc⟩ := p
    have h1 := one_archive_inv st sid mode aerr n arc h
    simp only [linkInputsFold]
    cases hra : ctf_link_one_input_archive st sid mode aerr n arc with
    | nullDeref => trivial
    | ok st1 aerr1 =>
      rw [hra] at h1
      exact lresInv_mono h1.2 (ih st1 aerr1 h1.1)

theorem setOutputs_empty_inv (st : St) (sid : Nat) (hs : sid < st.next) :
    perCUInv (setOutputs st sid (some [])) sid ∧
    (setOutputs st sid (some [])).next = st.next := by
  refine ⟨⟨hs, ?_⟩, rfl⟩
  intro q hq
  simp [setOutputs, upd] at hq

theorem ctf_link_inv (st : St) (sid : Nat) (mode : Int) (h : perCUInv st sid) :
    lresInv st sid (ctf_link st sid mode) := by
  simp only [ctf_link]
  split
  · exact ⟨h, le_refl _⟩
  · rename_i inputs hin
    by_cases hout : (st.w sid).linkOutputs = none
    · rw [if_pos hout]
      obtain ⟨h2, hn2⟩ := setOutputs_empty_inv st sid h.1
      have h3 := linkInputsFold_inv sid mode inputs (setOutputs st sid (some [])) 0 h2
      cases hra : linkInputsFold sid mode (setOutputs st sid (some [])) 0 inputs with
      | nullDeref => trivial
      | ok st1 aerr1 =>
        rw [hra] at h3
        exact lresInv_mono (le_of_eq hn2.symm) h3
    · rw [if_neg hout]
      have h3 := linkInputsFold_inv sid mode inputs st 0 h
      cases hra : linkInputsFold sid mode st 0 inputs with
      | nullDeref => trivial
      | ok st1 aerr1 =>
        rw [hra] at h3
        exact h3

theorem allocCU_facts (st : St) (cu : CU) :
    (allocCU st cu).2 = st.next ∧ (allocCU st cu).1.next = st.next + 1 ∧
    ((allocCU st cu).1.w st.next).types = cu.types ∧
    ((allocCU st cu).1.w st.next).vars = cu.vars ∧
    (∀ j, j ≠ st.next → (allocCU st cu).1.w j = st.w j) := by
  refine ⟨rfl, rfl, by simp [allocCU, upd], by simp [allocCU, upd], ?_⟩
  intro j hj
  simp [allocCU, upd, hj]

theorem one_type_main_consistent (st : St) (sid : Nat) (an cn : Name) (inId tid : Nat)
    (rep : TypeRep) (f : Nat → Nat) (ho : (st.w sid).linkOutputs = some [])
    (hc : typesConsistent f (st.w sid)) (hr : rep.sh = f rep.nm) :
    ∃ st', ctf_link_one_type st sid CTF_LINK_SHARE_UNCONFLICTED false an cn inId tid rep =
        (st', 0) ∧
      st'.next = st.next ∧ (st'.w sid).linkOutputs = some [] ∧
      typesConsistent f (st'.w sid) := by
  obtain ⟨hnc, hcons⟩ := ctf_add_type_consistent st sid inId tid rep f hc hr
  have hf := ctf_add_type_frame st sid inId tid rep
  rcases hadd : ctf_add_type st sid inId tid rep with ⟨st1, res⟩
  rw [hadd] at hnc hcons hf
  dsimp only at hnc hcons hf
  cases res with
  | conflict => exact absurd rfl hnc
  | ok idx =>
    refine ⟨st1, ?_, hf.1, ?_, hcons⟩
    · simp [ctf_link_one_type, CTF_LINK_SHARE_UNCONFLICTED, hadd]
    · rw [(hf.2.1 sid).2]
      exact ho

theorem typeFold_main_consistent (sid : Nat) (an cn : Name) (inId : Nat) (child : Bool)
    (f : Nat → Nat) (l : List TypeRep) : ∀ (i : Nat) (st : St),
    (∀ r ∈ l, r.sh = f r.nm) → (st.w sid).linkOutputs = some [] →
    typesConsistent f (st.w sid) →
    ∃ st', typeFold st sid CTF_LINK_SHARE_UNCONFLICTED false an cn inId child i l =
        (st', 0) ∧
      st'.next = st.next ∧ (st'.w sid).linkOutputs = some [] ∧
      typesConsistent f (st'.w sid) := by
  induction l with
  | nil => intro i st _ h2 h3; exact ⟨st, rfl, rfl, h2, h3⟩
  | cons rep rest ih =>
    intro i st hl h2 h3
    obtain ⟨st1, hone, hn1, ho1, hc1⟩ := one_type_main_consistent st sid an cn inId
      (LCTF_INDEX_TO_TYPE (i + 1) child) rep f h2 h3 (hl rep (List.mem_cons_self _ _))
    obtain ⟨st2, hrest, hn2, ho2, hc2⟩ :=
      ih (i + 1) st1 (fun r hr => hl r (List.mem_cons_of_mem _ hr)) ho1 hc1
    refine ⟨st2, ?_, hn2.trans hn1, ho2, hc2⟩
    simp [typeFold, hone, hrest]

theorem varFold_frame_facts (o i : Nat) (l : List (Name × Nat)) (st : St) (sid : Nat) :
    (varFold st o i l).1.next = st.next ∧
    ((varFold st o i l).1.w sid).linkOutputs = (st.w sid).linkOutputs ∧
    ((varFold st o i l).1.w sid).types = (st.w sid).types := by
  obtain ⟨hn, hplt⟩ := varFold_plt o i l st
  exact ⟨hn, (hplt sid).2.1, (hplt sid).2.2⟩

theorem member_main_consistent (st : St) (sid : Nat) (fn : Name) (mainId fpId : Nat)
    (f : Nat → Nat) (ho : (st.w sid).linkOutputs = some [])
    (hc : typesConsistent f (st.w sid))
    (hl : ∀ r ∈ (st.w fpId).types, r.sh = f r.nm) :
    ∃ st' e,
      ctf_link_one_input_archive_member st sid CTF_LINK_SHARE_UNCONFLICTED fn mainId
        false fpId ctfSection = (st', e) ∧
      st'.next = st.next ∧ (st'.w sid).linkOutputs = some [] ∧
      typesConsistent f (st'.w sid) := by
  obtain ⟨st1, htf, hn1, ho1, hc1⟩ := typeFold_main_consistent sid
    (linkArcname true fn ctfSection) (linkCuName (linkArcname true fn ctfSection)) fpId
    (st.w fpId).parent.isSome f (st.w fpId).types 0 st hl ho hc
  obtain ⟨hvn, hvo, hvt⟩ := varFold_frame_facts sid fpId (st1.w fpId).vars st1 sid
  refine ⟨(varFold st1 sid fpId (st1.w fpId).vars).1,
    (varFold st1 sid fpId (st1.w fpId).vars).2, ?_, ?_, ?_, ?_⟩
  · simp [ctf_link_one_input_archive_member, htf]
  · rw [hvn, hn1]
  · rw [hvo, ho1]
  · intro r hr
    rw [hvt] at hr
    exact hc1 r hr

theorem member_done_main (st : St) (sid : Nat) (mode : Int) (fn : Name)
    (mainId fpId : Nat) :
    ctf_link_one_input_archive_member st sid mode fn mainId true fpId ctfSection =
      (st, 0) := by
  simp [ctf_link_one_input_archive_member]

theorem one_archive_main_only (st : St) (sid : Nat) (aerr : Int) (n : Name)
    (arc : Archive) (f : Nat → Nat) (hs : sid < st.next)
    (ho : (st.w sid).linkOutputs = some []) (hc : typesConsistent f (st.w sid))
    (harc : mainOnlyConsistent f arc) :
    ∃ st', ctf_link_one_input_archive st sid CTF_LINK_SHARE_UNCONFLICTED aerr n arc =
        .ok st' aerr ∧
      sid < st'.next ∧ (st'.w sid).linkOutputs = some [] ∧
      typesConsistent f (st'.w sid) := by
  obtain ⟨cu, hmem, hcu⟩ := harc
  have hopen : ctf_arc_open_main arc = .ok cu := by
    simp [ctf_arc_open_main, hmem, assocGet]
  obtain ⟨hA2, hAn, hAt, _, hAo⟩ := allocCU_facts st cu
  rcases ha : allocCU st cu with ⟨stA, mainId⟩
  rw [ha] at hA2 hAn hAt hAo
  dsimp only at hA2 hAn hAt hAo
  subst hA2
  have hwsidA : stA.w sid = st.w sid := hAo sid (Nat.ne_of_lt hs)
  have hoA : (stA.w sid).linkOutputs = some [] := by rw [hwsidA]; exact ho
  have hcA : typesConsistent f (stA.w sid) := by rw [hwsidA]; exact hc
  have hlA : ∀ r ∈ (stA.w st.next).types, r.sh = f r.nm := by
    rw [hAt]; exact hcu
  obtain ⟨st1, e1, hm1, hn1, ho1, hc1⟩ :=
    member_main_consistent stA sid n st.next st.next f hoA hcA hlA
  obtain ⟨hB2, hBn, _, _, hBo⟩ := allocCU_facts st1 cu
  rcases hb : allocCU st1 cu with ⟨stB, fp2⟩
  rw [hb] at hB2 hBn hBo
  dsimp only at hB2 hBn hBo
  subst hB2
  have hs1 : sid < st1.next := by
    rw [hn1, hAn]
    exact Nat.lt_succ_of_lt hs
  have hwsidB : stB.w sid = st1.w sid := hBo sid (Nat.ne_of_lt hs1)
  refine ⟨stB, ?_, ?_, ?_, ?_⟩
  · simp only [ctf_link_one_input_archive, hopen, ha, hm1, hmem, archiveMembersFold,
      hb, member_done_main]
    norm_num
  · rw [hBn]; exact Nat.lt_succ_of_lt hs1
  · rw [hwsidB]; exact ho1
  · rw [hwsidB]; exact hc1

theorem inputsFold_main_only (sid : Nat) (f : Nat → Nat) (l : List (Name × Archive)) :
    ∀ (st : St) (aerr : Int), sid < st.next → (st.w sid).linkOutputs = some [] →
    typesConsistent f (st.w sid) → (∀ p ∈ l, mainOnlyConsistent f p.2) →
    ∃ st', linkInputsFold sid CTF_LINK_SHARE_UNCONFLICTED st aerr l = .ok st' aerr ∧
      (st'.w sid).linkOutputs = some [] := by
  induction l with
  | nil => intro st aerr _ ho _ _; exact ⟨st, rfl, ho⟩
  | cons p rest ih =>
    intro st aerr hs ho hc hl
    obtain ⟨n, arc⟩ := p
    obtain ⟨st1, h1, hs1, ho1, hc1⟩ := one_archive_main_only st sid aerr n arc f hs ho hc
      (hl (n, arc) (List.mem_cons_self _ _))
    obtain ⟨st2, h2, ho2⟩ := ih st1 aerr hs1 ho1 hc1
      (fun q hq => hl q (List.mem_cons_of_mem _ hq))
    refine ⟨st2, ?_, ho2⟩
    simp [linkInputsFold, h1, h2]

/-- Counterexample to C5's second half as stated: linking `c5_s1` — one
archive with an empty main member and one input per-CU member holding a
type — creates the per-CU output (fooName, handle 4) although no type ever
conflicted with the shared output: the shared output's type table is empty
before and after the link, and a conflict requires a same-named type to be
present there.  (Its first half holds: the created container's parent is
the shared output.) -/
theorem claim5_per_cu_counterexample :
    (c5_s1.w 0).linkOutputs = none ∧
    (c5_s1.w 0).types = [] ∧
    (c5_s2.w 0).linkOutputs = some [(fooName, 4)] ∧
    (c5_s2.w 0).types = [] ∧
    (c5_s2.w 4).parent = some 0 :=
  ⟨rfl, rfl, rfl, rfl, rfl⟩

/-- Claim C5 as amended: every per-CU output container of a completed link
has the shared output installed as its parent (no deeper nesting), and a
per-CU output is created only when a type demanded it — a main-member type
that conflicted with the shared output, or any type of an input per-CU
member, which skips the shared add; hence a link whose inputs are
main-member-only archives with pairwise conflict-free (shape-consistent)
types creates no per-CU containers. -/
theorem claim5_per_cu_amended :
    (∀ st sid mode st' e, perCUInv st sid →
      ctf_link st sid mode = LRes.ok st' e → perCUInv st' sid) ∧
    (∀ st sid inputs f, (st.w sid).linkInputs = some inputs →
      (st.w sid).linkOutputs = none → sid < st.next →
      typesConsistent f (st.w sid) →
      (∀ p ∈ inputs, mainOnlyConsistent f p.2) →
      ∃ st', ctf_link st sid CTF_LINK_SHARE_UNCONFLICTED = LRes.ok st' 0 ∧
        (st'.w sid).linkOutputs = some []) := by
  constructor
  · intro st sid mode st' e h heq
    have h1 := ctf_link_inv st sid mode h
    rw [heq] at h1
    exact h1.1
  · intro st sid inputs f hin hout hs hc hl
    have hso_s : sid < (setOutputs st sid (some [])).next := hs
    have hso_o : ((setOutputs st sid (some [])).w sid).linkOutputs = some [] := by
      simp [setOutputs, upd]
    have hso_c : typesConsistent f ((setOutputs st sid (some [])).w sid) := by
      intro r hr
      simp [setOutputs, upd] at hr
      exact hc r hr
    obtain ⟨st', hfold, ho'⟩ := inputsFold_main_only sid f inputs
      (setOutputs st sid (some [])) 0 hso_s hso_o hso_c hl
    refine ⟨st', ?_, ho'⟩
    simp [ctf_link, hin, hout, hfold]

/-- Witness for the amended C5: the invariant holds after the concrete
per-CU-creating link, and the concrete conflict-free main-only link leaves
the output set allocated but empty. -/
theorem claim5_per_cu_witness :
    perCUInv c5_s2 0 ∧
    ∃ st', ctf_link c2_s1 0 CTF_LINK_SHARE_UNCONFLICTED = LRes.ok st' 0 ∧
      (st'.w 0).linkOutputs = some [] := by
  constructor
  · have h0 : perCUInv c5_s1 0 := by
      refine ⟨by decide, ?_⟩
      intro p hp
      have hnil : (c5_s1.w 0).linkOutputs.getD [] = [] := rfl
      rw [hnil] at hp
      exact absurd hp (List.not_mem_nil p)
    exact claim5_per_cu_amended.1 c5_s1 0 CTF_LINK_SHARE_UNCONFLICTED c5_s2 0 h0 rfl
  · refine claim5_per_cu_amended.2 c2_s1 0 [(aName, archTrivial)] (fun _ => 0) rfl rfl
      (by decide) ?_ ?_
    · intro r hr
      have hnil : (c2_s1.w 0).types = [] := rfl
      rw [hnil] at hr
      exact absurd hr (List.not_mem_nil r)
    · intro p hp
      rw [List.mem_singleton] at hp
      subst hp
      refine ⟨{}, rfl, ?_⟩
      intro r hr
      exact absurd hr (List.not_mem_nil r)

theorem inputsFold_all_skip (sid : Nat) (mode : Int) (l : List (Name × Archive)) :
    ∀ (st : St) (aerr : Int),
    (∀ p ∈ l, ∃ e, ctf_arc_open_main p.2 = Member.bad e ∧ e ≠ ECTF_ARNNAME) →
    linkInputsFold sid mode st aerr l = LRes.ok st aerr := by
  induction l with
  | nil => intro st aerr _; rfl
  | cons p rest ih =>
    intro st aerr hall
    obtain ⟨n, arc⟩ := p
    obtain ⟨e, hopen, hne⟩ := hall (n, arc) (List.mem_cons_self _ _)
    simp [linkInputsFold, ctf_link_one_input_archive, hopen, hne,
      ih st aerr (fun q hq => hall q (List.mem_cons_of_mem _ hq))]

/-- Counterexample to C1 as stated: with the registered archive whose main
member fails to open with the format error (not member-not-found), the
claim demands the link abort with that error; the code skips the archive
with a diagnostic and the link returns ok (0).  With the registered
archive that has no main member at all (member-not-found), the claim
demands a skip and a successful link; the code instead goes on using the
absent handle — the null-dereference outcome, not a completed link. -/
theorem claim1_open_failure_counterexample :
    linkErrOf (ctf_link stBadFmt 0 CTF_LINK_SHARE_UNCONFLICTED) = some 0 ∧
    (0 : Int) ≠ ECTF_FMT ∧
    linkErrOf (ctf_link stNoMain 0 CTF_LINK_SHARE_UNCONFLICTED) = none :=
  ⟨rfl, by decide, rfl⟩

/-- Claim C1 as amended: an input archive whose main-member open fails
with any error other than member-not-found is skipped with a diagnostic —
the archive contributes nothing and the promoted error is untouched — so a
link over such archives completes and returns ok; an archive whose main
member is missing (member-not-found) is not skipped: the link proceeds
into the member walk with the absent main handle, a null dereference. -/
theorem claim1_open_failure_amended :
    (∀ (st : St) (sid : Nat) (mode aerr : Int) (n : Name) (arc : Archive) (e : Int),
      ctf_arc_open_main arc = Member.bad e →
      (e ≠ ECTF_ARNNAME →
        ctf_link_one_input_archive st sid mode aerr n arc = LRes.ok st aerr) ∧
      (e = ECTF_ARNNAME →
        ctf_link_one_input_archive st sid mode aerr n arc = LRes.nullDeref)) ∧
    (∀ (st : St) (sid : Nat) (mode : Int) (inputs : List (Name × Archive)),
      (st.w sid).linkInputs = some inputs →
      (∀ p ∈ inputs, ∃ e, ctf_arc_open_main p.2 = Member.bad e ∧ e ≠ ECTF_ARNNAME) →
      linkErrOf (ctf_link st sid mode) = some 0) := by
  constructor
  · intro st sid mode aerr n arc e hopen
    constructor
    · intro hne
      simp [ctf_link_one_input_archive, hopen, hne]
    · intro heqe
      subst heqe
      simp [ctf_link_one_input_archive, hopen]
  · intro st sid mode inputs hin hall
    simp only [ctf_link, hin]
    by_cases hout : (st.w sid).linkOutputs = none
    · rw [if_pos hout]
      rw [inputsFold_all_skip sid mode inputs _ 0 hall]
      rfl
    · rw [if_neg hout]
      rw [inputsFold_all_skip sid mode inputs st 0 hall]
      rfl

/-- Witness for the amended C1 at the concrete corrupt-main and main-less
archives. -/
theorem claim1_open_failure_witness :
    ctf_link_one_input_archive stBadFmt 0 CTF_LINK_SHARE_UNCONFLICTED 0 aName
      archBadFmt = LRes.ok stBadFmt 0 ∧
    ctf_link_one_input_archive stNoMain 0 CTF_LINK_SHARE_UNCONFLICTED 0 aName
      archNoMain = LRes.nullDeref := by
  constructor
  · exact (claim1_open_failure_amended.1 stBadFmt 0 CTF_LINK_SHARE_UNCONFLICTED 0 aName
      archBadFmt ECTF_FMT rfl).1 (by decide)
  · exact (claim1_open_failure_amended.1 stNoMain 0 CTF_LINK_SHARE_UNCONFLICTED 0 aName
      archNoMain ECTF_ARNNAME rfl).2 rfl

theorem assocGet_assocPut_self {α β : Type} [DecidableEq α] (l : List (α × β))
    (a : α) (b : β) : assocGet (assocPut l a b) a = some b := by
  induction l with
  | nil => simp [assocPut, assocGet]
  | cons kv rest ih =>
    obtain ⟨k, v⟩ := kv
    by_cases h : k = a
    · simp [assocPut, assocGet, h]
    · simp [assocPut, assocGet, h, ih]

theorem assocGet_assocPut_ne {α β : Type} [DecidableEq α] (l : List (α × β))
    (a a' : α) (b : β) (h : a' ≠ a) :
    assocGet (assocPut l a b) a' = assocGet l a' := by
  have h2 : a ≠ a' := Ne.symm h
  induction l with
  | nil => simp [assocPut, assocGet, h2]
  | cons kv rest ih =>
    obtain ⟨k, v⟩ := kv
    by_cases hk : k = a
    · subst hk
      simp [assocPut, assocGet, h2]
    · simp [assocPut, assocGet, hk, ih]

theorem internPair_facts (w : World) (cid : Nat) (s : Name) (off : Nat)
    (aFail : Name → Nat → Bool) :
    (internPair w cid s off aFail).2 = aFail s cid ∧
    (∀ j, ((internPair w cid s off aFail).1 j).linkOutputs = (w j).linkOutputs) ∧
    (∀ j, ((internPair w cid s off aFail).1 j).dirty =
      (if j = cid then true else (w j).dirty)) ∧
    (∀ j, j ≠ cid → ((internPair w cid s off aFail).1 j).externs = (w j).externs) ∧
    (aFail s cid = false →
      ((internPair w cid s off aFail).1 cid).externs =
        assocPut (w cid).externs s off) ∧
    (aFail s cid = true →
      ((internPair w cid s off aFail).1 cid).externs = (w cid).externs) := by
  refine ⟨?_, ?_, ?_, ?_, ?_, ?_⟩
  · by_cases hf : aFail s cid <;> simp [internPair, hf]
  · intro j
    by_cases hj : j = cid
    · subst hj
      by_cases hf : aFail s j <;> simp [internPair, hf, upd]
    · by_cases hf : aFail s cid <;> simp [internPair, hf, upd, hj]
  · intro j
    by_cases hj : j = cid
    · subst hj
      by_cases hf : aFail s j <;> simp [internPair, hf, upd]
    · by_cases hf : aFail s cid <;> simp [internPair, hf, upd, hj]
  · intro j hj
    by_cases hf : aFail s cid <;> simp [internPair, hf, upd, hj]
  · intro hf
    simp [internPair, hf, upd]
  · intro hf
    simp [internPair, hf, upd]

theorem internPair_get_other (w : World) (cid : Nat) (s : Name) (off : Nat)
    (aFail : Name → Nat → Bool) (j : Nat) (s2 : Name) (hs : s2 ≠ s) :
    assocGet ((internPair w cid s off aFail).1 j).externs s2 =
      assocGet (w j).externs s2 := by
  by_cases hj : j = cid
  · subst hj
    by_cases hf : aFail s j
    · rw [((internPair_facts w j s off aFail).2.2.2.2.2) hf]
    · rw [((internPair_facts w j s off aFail).2.2.2.2.1) (by simp [hf])]
      exact assocGet_assocPut_ne _ _ _ _ hs
  · rw [((internPair_facts w cid s off aFail).2.2.2.1) j hj]

theorem strtabOutputsFold_facts (aFail : Name → Nat → Bool) (s : Name) (off : Nat)
    (l : List (Name × Nat)) : ∀ w : World,
    (strtabOutputsFold aFail s off w l).2 = l.any (fun q => aFail s q.2) ∧
    (∀ j, ((strtabOutputsFold aFail s off w l).1 j).linkOutputs =
      (w j).linkOutputs) ∧
    (∀ j, j ∈ l.map Prod.snd →
      ((strtabOutputsFold aFail s off w l).1 j).dirty = true) ∧
    (∀ j, (w j).dirty = true →
      ((strtabOutputsFold aFail s off w l).1 j).dirty = true) ∧
    (∀ j, aFail s j = false →
      (assocGet (w j).externs s = some off ∨ j ∈ l.map Prod.snd) →
      assocGet ((strtabOutputsFold aFail s off w l).1 j).externs s = some off) ∧
    (∀ j s2, s2 ≠ s →
      assocGet ((strtabOutputsFold aFail s off w l).1 j).externs s2 =
        assocGet (w j).externs s2) := by
  induction l with
  | nil =>
    intro w
    refine ⟨rfl, fun j => rfl, ?_, fun j h => h, ?_, fun j s2 _ => rfl⟩
    · intro j hj; simp at hj
    · intro j _ hj
      rcases hj with h | h
      · exact h
      · simp at h
  | cons q rest ih =>
    intro w
    obtain ⟨n, cid⟩ := q
    obtain ⟨if1, if2, if3, if4, if5, if6⟩ := internPair_facts w cid s off aFail
    obtain ⟨ih1, ih2, ih3, ih4, ih5, ih6⟩ := ih (internPair w cid s off aFail).1
    rcases hip : internPair w cid s off aFail with ⟨w1, fl⟩
    rw [hip] at if1 if2 if3 if4 if5 if6 ih1 ih2 ih3 ih4 ih5 ih6
    dsimp only at if1 if2 if3 if4 if5 if6 ih1 ih2 ih3 ih4 ih5 ih6
    rcases hof : strtabOutputsFold aFail s off w1 rest with ⟨w2, fl2⟩
    rw [hof] at ih1 ih2 ih3 ih4 ih5 ih6
    refine ⟨?_, ?_, ?_, ?_, ?_, ?_⟩
    · simp only [strtabOutputsFold, hip, hof, List.any_cons]
      rw [if1]
      exact congrArg (fun b => aFail s cid || b) ih1
    · intro j
      simp only [strtabOutputsFold, hip, hof]
      exact (ih2 j).trans (if2 j)
    · intro j hj
      simp only [strtabOutputsFold, hip, hof]
      simp only [List.map_cons, List.mem_cons] at hj
      rcases hj with h | h
      · subst h
        apply ih4
        rw [if3 j]
        simp
      · exact ih3 j h
    · intro j hd
      simp only [strtabOutputsFold, hip, hof]
      apply ih4
      rw [if3 j]
      by_cases hj : j = cid <;> simp [hj, hd]
    · intro j hfj hj
      simp only [strtabOutputsFold, hip, hof]
      apply ih5 j hfj
      simp only [List.map_cons, List.mem_cons] at hj
      rcases hj with hget | hmem
      · left
        by_cases hjc : j = cid
        · subst hjc
          rw [if5 hfj]
          exact assocGet_assocPut_self _ _ _
        · rw [if4 j hjc]
          exact hget
      · rcases hmem with h | h
        · subst h
          left
          rw [if5 hfj]
          exact assocGet_assocPut_self _ _ _
        · right
          exact h
    · intro j s2 hs
      simp only [strtabOutputsFold, hip, hof]
      have hgo := internPair_get_other w cid s off aFail j s2 hs
      rw [hip] at hgo
      exact (ih6 j s2 hs).trans hgo

theorem addStrtabGo_facts (sid : Nat) (aFail : Name → Nat → Bool)
    (pairs : List (Name × Nat)) : ∀ (w : World) (err : Int),
    ((addStrtabGo sid aFail w err pairs).2 =
      (if pairs.any (fun p => aFail p.1 sid ||
          ((w sid).linkOutputs.getD []).any (fun q => aFail p.1 q.2))
        then ENOMEM else err)) ∧
    (∀ j, ((addStrtabGo sid aFail w err pairs).1 j).linkOutputs =
      (w j).linkOutputs) ∧
    (pairs ≠ [] → ((addStrtabGo sid aFail w err pairs).1 sid).dirty = true ∧
      ∀ j ∈ ((w sid).linkOutputs.getD []).map Prod.snd,
        ((addStrtabGo sid aFail w err pairs).1 j).dirty = true) ∧
    (∀ j, (w j).dirty = true →
      ((addStrtabGo sid aFail w err pairs).1 j).dirty = true) ∧
    ((pairs.map Prod.fst).Nodup → ∀ s off, (s, off) ∈ pairs →
      ∀ j, aFail s j = false →
      (j = sid ∨ j ∈ ((w sid).linkOutputs.getD []).map Prod.snd) →
      assocGet ((addStrtabGo sid aFail w err pairs).1 j).externs s = some off) ∧
    (∀ j s2, s2 ∉ pairs.map Prod.fst →
      assocGet ((addStrtabGo sid aFail w err pairs).1 j).externs s2 =
        assocGet (w j).externs s2) := by
  induction pairs with
  | nil =>
    intro w err
    refine ⟨by simp [addStrtabGo], fun j => rfl, fun h => absurd rfl h, fun j h => h,
      ?_, fun j s2 _ => rfl⟩
    intro _ s off hmem
    simp at hmem
  | cons p rest ih =>
    intro w err
    obtain ⟨s0, o0⟩ := p
    obtain ⟨if1, if2, if3, if4, if5, if6⟩ := internPair_facts w sid s0 o0 aFail
    rcases hip : internPair w sid s0 o0 aFail with ⟨w1, fsh⟩
    rw [hip] at if1 if2 if3 if4 if5 if6
    have hOUT : (w1 sid).linkOutputs.getD [] = (w sid).linkOutputs.getD [] := by
      rw [if2 sid]
    obtain ⟨ff1, ff2, ff3, ff4, ff5, ff6⟩ :=
      strtabOutputsFold_facts aFail s0 o0 ((w1 sid).linkOutputs.getD []) w1
    rcases hof : strtabOutputsFold aFail s0 o0 w1 ((w1 sid).linkOutputs.getD [])
      with ⟨w2, fl2⟩
    rw [hof] at ff1 ff2 ff3 ff4 ff5 ff6
    have hw2sid : (w2 sid).linkOutputs.getD [] = (w sid).linkOutputs.getD [] := by
      have := ff2 sid
      rw [show ((w2, fl2).1 sid).linkOutputs = (w2 sid).linkOutputs from rfl] at this
      rw [this, if2 sid]
    obtain ⟨ih1, ih2, ih3, ih4, ih5, ih6⟩ :=
      ih w2 (if fl2 then ENOMEM else if fsh then ENOMEM else err)
    refine ⟨?_, ?_, ?_, ?_, ?_, ?_⟩
    · simp only [addStrtabGo, hip, hof]
      rw [ih1, hw2sid]
      rw [show fsh = aFail s0 sid from if1]
      rw [show fl2 = ((w1 sid).linkOutputs.getD []).any (fun q => aFail s0 q.2) from ff1,
        hOUT]
      by_cases c1 : aFail s0 sid <;>
        by_cases c2 : ((w sid).linkOutputs.getD []).any (fun q => aFail s0 q.2) <;>
        by_cases c3 : rest.any (fun p => aFail p.1 sid ||
          ((w sid).linkOutputs.getD []).any (fun q => aFail p.1 q.2)) <;>
      simp [c1, c2, c3]
    · intro j
      simp only [addStrtabGo, hip, hof]
      rw [ih2 j]
      exact ((ff2 j).trans (if2 j))
    · intro _
      constructor
      · simp only [addStrtabGo, hip, hof]
        apply ih4
        apply ff4
        rw [if3 sid]
        simp
      · intro j hj
        simp only [addStrtabGo, hip, hof]
        apply ih4
        apply ff3
        rw [hOUT]
        exact hj
    · intro j hd
      simp only [addStrtabGo, hip, hof]
      apply ih4
      apply ff4
      rw [if3 j]
      by_cases hj : j = sid <;> simp [hj, hd]
    · intro hnd s off hmem j hfj hj
      have hj2 : j = sid ∨ j ∈ ((w2 sid).linkOutputs.getD []).map Prod.snd := by
        rw [hw2sid]; exact hj
      simp only [List.map_cons, List.nodup_cons] at hnd
      rcases List.mem_cons.mp hmem with hhead | hrest
      · have hs : s = s0 ∧ off = o0 := by
          have := Prod.mk.injEq s off s0 o0 ▸ congrArg id hhead
          exact ⟨congrArg Prod.fst hhead, congrArg Prod.snd hhead⟩
        obtain ⟨hs1, hs2⟩ := hs
        subst hs1
        subst hs2
        have hw2get : assocGet (w2 j).externs s = some off := by
          apply ff5 j hfj
          rcases hj with hjs | hjm
          · subst hjs
            left
            rw [if5 hfj]
            exact assocGet_assocPut_self _ _ _
          · right
            rw [hOUT]
            exact hjm
        simp only [addStrtabGo, hip, hof]
        rw [ih6 j s (by simpa using hnd.1)]
        exact hw2get
      · simp only [addStrtabGo, hip, hof]
        exact ih5 hnd.2 s off hrest j hfj hj2
    · intro j s2 hs2
      simp only [List.map_cons, List.mem_cons] at hs2
      push_neg at hs2
      simp only [addStrtabGo, hip, hof]
      rw [ih6 j s2 hs2.2]
      have hgo := internPair_get_other w sid s0 o0 aFail j s2 hs2.1
      rw [hip] at hgo
      exact (ff6 j s2 hs2.1).trans hgo

/-- Claim C8: every (string, offset) pair yielded by the producer is
interned into the shared output's external table and fanned out to every
per-CU output container, marking each container dirty; an interning
failure makes the call return out-of-memory, but processing of the
remaining pairs continues — every pair whose intern succeeds is present at
the end regardless of earlier failures.  The return code is `ENOMEM`
exactly when some intern failed, else 0. -/
theorem claim8_add_strtab (st : St) (sid : Nat) (pairs : List (Name × Nat))
    (aFail : Name → Nat → Bool) :
    ((ctf_link_add_strtab st sid pairs aFail).2 =
      (if pairs.any (fun p => aFail p.1 sid ||
          ((st.w sid).linkOutputs.getD []).any (fun q => aFail p.1 q.2))
        then ENOMEM else 0)) ∧
    (pairs ≠ [] → ((ctf_link_add_strtab st sid pairs aFail).1.w sid).dirty = true ∧
      ∀ q ∈ (st.w sid).linkOutputs.getD [],
        ((ctf_link_add_strtab st sid pairs aFail).1.w q.2).dirty = true) ∧
    ((pairs.map Prod.fst).Nodup → ∀ s off, (s, off) ∈ pairs →
      ∀ cid, aFail s cid = false →
      (cid = sid ∨ cid ∈ ((st.w sid).linkOutputs.getD []).map Prod.snd) →
      assocGet ((ctf_link_add_strtab st sid pairs aFail).1.w cid).externs s =
        some off) := by
  obtain ⟨g1, _, g3, _, g5, _⟩ := addStrtabGo_facts sid aFail pairs st.w 0
  refine ⟨g1, ?_, g5⟩
  intro hne
  obtain ⟨d1, d2⟩ := g3 hne
  refine ⟨d1, ?_⟩
  intro q hq
  exact d2 q.2 (List.mem_map_of_mem Prod.snd hq)

/-- Witness for C8 on a shared output with one per-CU container, two
yielded pairs and an oracle failing only for ("a", container 1): the call
returns out-of-memory, yet the second pair is present in container 1's
external table and the container is dirty. -/
theorem claim8_add_strtab_witness :
    (ctf_link_add_strtab c7_stOut 0 c8_pairs c8_fail).2 = ENOMEM ∧
    assocGet ((ctf_link_add_strtab c7_stOut 0 c8_pairs c8_fail).1.w 1).externs
      bName = some 34 ∧
    ((ctf_link_add_strtab c7_stOut 0 c8_pairs c8_fail).1.w 1).dirty = true := by
  obtain ⟨g1, g2, g3⟩ := claim8_add_strtab c7_stOut 0 c8_pairs c8_fail
  refine ⟨?_, ?_, ?_⟩
  · rw [g1]; rfl
  · exact g3 (by decide) bName 34 (by decide) 1 (by decide) (Or.inr (by decide))
  · exact (g2 (by decide)).2 (fooName, 1) (by decide)

end CtfLink
